import Mathlib

/-!
Shallow embedding of the production-schedule reflow engine
(`src/utils/interval-utils.ts`, `src/utils/date-utils.ts`,
`src/reflow/dag.ts`, `src/reflow/reflow.service.ts`,
`src/reflow/constraint-checker.ts`, plus the second allocator variant
found in `src/unnamed/part_001`).

Modelling conventions:
* A UTC instant is a `Nat`: minutes since 1970-01-01T00:00Z.  The spec
  fixes all boundary times to be minute-aligned ISO-8601 UTC strings, and
  every arithmetic step of the code (`plus({minutes})`, `startOf("day")`,
  `set({hour})`, `diff(...,"minutes")` with `Math.floor`) stays on the
  minute grid, so the embedding works with exact minute counts.
  1970-01-01 was a Thursday, hence the weekday of a day number `n`
  (with Sunday = 0, matching `weekday % 7` in the code) is `(n + 4) % 7`.
* JS `Map`s are association lists with JS `Map` semantics: insertion
  keeps the position of an existing key and appends a new key; lookup
  returns the stored value.  JS `Set` dedups keeping first occurrence.
* `throw` is modelled by `Option`: `none` means the call failed (or, for
  the fuelled loops, did not terminate within the given fuel).  The
  unbounded `while` loop of the allocator and the reflow driver's calls
  to it take an explicit `fuel`; claims about runs that return a result
  are conditioned on the fuelled function returning `some`.
-/

namespace Reflow

/-- Half-open interval `[start, stop)` of minute instants.  The source
field `end` is a Lean keyword and is embedded as `stop`. -/
structure Interval where
  start : Nat
  stop : Nat
  deriving Repr, DecidableEq

/-- `overlaps` of `interval-utils.ts`: `a.start < b.end && b.start < a.end`. -/
def overlaps (a b : Interval) : Bool :=
  a.start < b.stop && b.start < a.stop

/-- Stable insertion of an interval into a list sorted by `start`
ascending (the element is placed before the first strictly larger
start, i.e. after earlier elements with an equal start). -/
def insertByStart (x : Interval) : List Interval → List Interval
  | [] => [x]
  | y :: ys => if x.start ≤ y.start then x :: y :: ys else y :: insertByStart x ys

/-- `sortIntervals` of `interval-utils.ts`: a stable sort of a copy of the
list by `start` ascending (JS `Array.prototype.sort` is stable). -/
def sortIntervals (l : List Interval) : List Interval :=
  l.foldr insertByStart []

/-- `pushOutOfBlocked` of `interval-utils.ts`: a single linear scan; the
first block containing the cursor sends it to that block's end. -/
def pushOutOfBlocked (cursor : Nat) : List Interval → Nat
  | [] => cursor
  | b :: rest =>
    if b.start ≤ cursor ∧ cursor < b.stop then b.stop
    else pushOutOfBlocked cursor rest

/-- `Shift` of `reflow/types.ts`. -/
structure Shift where
  dayOfWeek : Nat
  startHour : Nat
  endHour : Nat
  deriving Repr, DecidableEq

/-- Minutes per day. -/
def minutesPerDay : Nat := 1440

/-- `startOf("day")` on a minute instant. -/
def startOfDay (t : Nat) : Nat := t / minutesPerDay * minutesPerDay

/-- Day-of-week with Sunday = 0 of the day containing instant `t`
(`day.weekday % 7` in the code; 1970-01-01 = day 0 was a Thursday). -/
def dayOfWeekOf (t : Nat) : Nat := (t / minutesPerDay + 4) % 7

/-- `shiftIntervalForDay` of `date-utils.ts`: instantiate a weekly shift
on the day starting at instant `day` (a multiple of 1440). -/
def shiftIntervalForDay (day : Nat) (s : Shift) : Interval :=
  { start := day + s.startHour * 60, stop := day + s.endHour * 60 }

/-- The sorted shift windows of day `day` whose `dayOfWeek` is `dow`
(the `dayWindows` local of `findNextShiftWindow`). -/
def dayWindowsFor (day dow : Nat) (shifts : List Shift) : List Interval :=
  sortIntervals ((shifts.filter fun s => s.dayOfWeek == dow).map (shiftIntervalForDay day))

/-- The day-scan loop of `findNextShiftWindow` in `date-utils.ts`:
`d` is the loop counter, `r` the days left in the 14-day horizon. -/
def findNextShiftWindowGo (cursor : Nat) (shifts : List Shift) : Nat → Nat → Option Interval
  | _, 0 => none
  | d, r + 1 =>
    let day := (cursor / minutesPerDay + d) * minutesPerDay
    let dow := dayOfWeekOf day
    match dayWindowsFor day dow shifts with
    | [] => findNextShiftWindowGo cursor shifts (d + 1) r
    | w :: ws =>
      if d == 0 then
        match (w :: ws).find? fun v => cursor < v.stop with
        | some v => some { start := max cursor v.start, stop := v.stop }
        | none => findNextShiftWindowGo cursor shifts (d + 1) r
      else
        some w

/-- `findNextShiftWindow` of `date-utils.ts` (identical in the
`part_001` variant): next usable shift window at or after the cursor,
`none` embeds the thrown errors (empty shift table, 14-day horizon
exhausted). -/
def findNextShiftWindow (cursor : Nat) (shifts : List Shift) : Option Interval :=
  if shifts.isEmpty then none
  else findNextShiftWindowGo cursor shifts 0 14

/-- The in-shift block scan of `scheduleWithShiftsAndBlocks`: first block
whose end is after the cursor, unless it starts at or after the shift
end (`continue` / `break` / take). -/
def findCuttingBlock (cursor shiftEnd : Nat) : List Interval → Option Interval
  | [] => none
  | b :: rest =>
    if b.stop ≤ cursor then findCuttingBlock cursor shiftEnd rest
    else if shiftEnd ≤ b.start then none
    else some b

/-- The `freeEnd` computation of `scheduleWithShiftsAndBlocks`:
`min(shiftEnd, nextBlockStart)` when the found block starts strictly
after the cursor, else `shiftEnd`. -/
def freeEndOf (cursor shiftEnd : Nat) : Option Interval → Nat
  | some b => if cursor < b.start then (if b.start < shiftEnd then b.start else shiftEnd) else shiftEnd
  | none => shiftEnd

/-- The `while (remaining > 0)` loop of `scheduleWithShiftsAndBlocks` in
`date-utils.ts` (`src/unnamed/part_002`).  State: `cursor`, `remaining`,
`scheduledStart` (`null` as `none`).  Returns the final
`(scheduledStart, cursor)` or `none` on a thrown shift-window error /
fuel exhaustion. -/
def schedLoop (shifts : List Shift) (blockedSorted : List Interval) :
    Nat → Nat → Nat → Option Nat → Option (Option Nat × Nat)
  | fuel, cursor, remaining, scheduledStart =>
    if remaining = 0 then some (scheduledStart, cursor)
    else
      match fuel with
      | 0 => none
      | fuel + 1 =>
        match findNextShiftWindow cursor shifts with
        | none => none
        | some w =>
          let c1 := max cursor w.start
          let c2 := pushOutOfBlocked c1 blockedSorted
          let c3 := max c2 w.start
          if w.stop ≤ c3 then
            schedLoop shifts blockedSorted fuel (w.stop + 1) remaining scheduledStart
          else
            let ss := match scheduledStart with | some v => some v | none => some c3
            let nb := findCuttingBlock c3 w.stop blockedSorted
            let freeEnd := freeEndOf c3 w.stop nb
            if freeEnd ≤ c3 then
              match nb with
              | some b => schedLoop shifts blockedSorted fuel b.stop remaining ss
              | none => schedLoop shifts blockedSorted fuel (w.stop + 1) remaining ss
            else
              let freeMinutes := freeEnd - c3
              if freeMinutes = 0 then
                schedLoop shifts blockedSorted fuel (freeEnd + 1) remaining ss
              else
                let used := min remaining freeMinutes
                let c4 := pushOutOfBlocked (c3 + used) blockedSorted
                schedLoop shifts blockedSorted fuel c4 (remaining - used) ss

/-- `scheduleWithShiftsAndBlocks` of `date-utils.ts`
(`src/unnamed/part_002`): allocate `durationMinutes` working minutes from
`startT` inside shift windows minus `blocked`; returns the elapsed
`(start, end)` span.  When the loop never set `scheduledStart` it
defaults to the raw `startISO` argument (not the pushed cursor). -/
def scheduleWithShiftsAndBlocks (fuel startT durationMinutes : Nat)
    (shifts : List Shift) (blocked : List Interval) : Option (Nat × Nat) :=
  let blockedSorted := sortIntervals blocked
  let cursor := pushOutOfBlocked startT blockedSorted
  match schedLoop shifts blockedSorted fuel cursor durationMinutes none with
  | none => none
  | some (ss, endCursor) => some (ss.getD startT, endCursor)

/-- The `while (remaining > 0)` loop of the `scheduleWithShiftsAndBlocks`
variant in `src/unnamed/part_001`: no clamp of the cursor to the shift
window start, and `scheduledStart` is fixed before the loop, so only the
end cursor is threaded. -/
def schedLoopV1 (shifts : List Shift) (blockedSorted : List Interval) :
    Nat → Nat → Nat → Option Nat
  | fuel, cursor, remaining =>
    if remaining = 0 then some cursor
    else
      match fuel with
      | 0 => none
      | fuel + 1 =>
        match findNextShiftWindow cursor shifts with
        | none => none
        | some w =>
          let c1 := pushOutOfBlocked cursor blockedSorted
          if w.stop ≤ c1 then
            schedLoopV1 shifts blockedSorted fuel (w.stop + 1) remaining
          else
            let nb := findCuttingBlock c1 w.stop blockedSorted
            let freeEnd := freeEndOf c1 w.stop nb
            if freeEnd ≤ c1 then
              match nb with
              | some b => schedLoopV1 shifts blockedSorted fuel b.stop remaining
              | none => schedLoopV1 shifts blockedSorted fuel (w.stop + 1) remaining
            else
              let freeMinutes := freeEnd - c1
              if freeMinutes = 0 then
                schedLoopV1 shifts blockedSorted fuel (freeEnd + 1) remaining
              else
                let used := min remaining freeMinutes
                let c2 := pushOutOfBlocked (c1 + used) blockedSorted
                schedLoopV1 shifts blockedSorted fuel c2 (remaining - used)

/-- The `scheduleWithShiftsAndBlocks` of `src/unnamed/part_001`:
`scheduledStart` is the initial pushed cursor, fixed before the loop. -/
def scheduleWithShiftsAndBlocksV1 (fuel startT durationMinutes : Nat)
    (shifts : List Shift) (blocked : List Interval) : Option (Nat × Nat) :=
  let blockedSorted := sortIntervals blocked
  let cursor := pushOutOfBlocked startT blockedSorted
  let scheduledStart := cursor
  match schedLoopV1 shifts blockedSorted fuel cursor durationMinutes with
  | none => none
  | some endCursor => some (scheduledStart, endCursor)

/-! ### Calendar helpers (for the concrete scenario inputs)

Days since 1970-01-01 of a Gregorian date, for years at or after 1970:
counting leap years below the year, plus the month offset, plus the day.
Used only to build concrete minute instants for the sample scenarios. -/

/-- Leap year test of the Gregorian calendar. -/
def isLeapYear (y : Nat) : Bool :=
  y % 4 == 0 && (y % 100 != 0 || y % 400 == 0)

/-- Number of leap years in `[1, y]`. -/
def leapYearsUpTo (y : Nat) : Nat := y / 4 - y / 100 + y / 400

/-- Cumulative days before month `m` (1-based) in a non-leap year. -/
def daysBeforeMonth (m : Nat) : Nat :=
  [0, 0, 31, 59, 90, 120, 151, 181, 212, 243, 273, 304, 334].getD m 0

/-- Days since 1970-01-01 of the date `y-m-d` (UTC, `y ≥ 1970`). -/
def daysSinceEpoch (y m d : Nat) : Nat :=
  365 * (y - 1970) + (leapYearsUpTo (y - 1) - leapYearsUpTo 1969)
    + daysBeforeMonth m + (if isLeapYear y && m > 2 then 1 else 0) + (d - 1)

/-- The minute instant of `y-m-d hh:mm` UTC. -/
def isoMin (y m d hh mm : Nat) : Nat :=
  daysSinceEpoch y m d * minutesPerDay + hh * 60 + mm

/-! ### Data model (`reflow/types.ts`) and JS container semantics -/

/-- `WorkOrderData` of `reflow/types.ts` (the passthrough
`manufacturingOrderId` tag is omitted: the core never reads it). -/
structure WorkOrderData where
  workOrderNumber : String
  workCenterId : String
  startDate : Nat
  endDate : Nat
  durationMinutes : Nat
  isMaintenance : Bool
  dependsOnWorkOrderIds : List String
  setupTimeMinutes : Option Nat
  deriving Repr, DecidableEq

/-- `WorkOrder` document. -/
structure WorkOrder where
  docId : String
  data : WorkOrderData
  deriving Repr, DecidableEq

/-- `MaintenanceWindow` of `reflow/types.ts` (`endDate` as `stopDate`). -/
structure MaintenanceWindow where
  startDate : Nat
  stopDate : Nat
  deriving Repr, DecidableEq

/-- `WorkCenterData` of `reflow/types.ts` (the `name` field is only used
in error messages and is omitted). -/
structure WorkCenterData where
  shifts : List Shift
  maintenanceWindows : List MaintenanceWindow
  deriving Repr, DecidableEq

/-- `WorkCenter` document. -/
structure WorkCenter where
  docId : String
  data : WorkCenterData
  deriving Repr, DecidableEq

/-- `ReflowInput` of `reflow/types.ts` (the optional passthrough
`manufacturingOrders` are unused by the core). -/
structure ReflowInput where
  workOrders : List WorkOrder
  workCenters : List WorkCenter
  deriving Repr, DecidableEq

/-- `Change` record of `reflow/types.ts` (`reason` is a fixed string and
is omitted; `deltaMinutes` is an integer and may be negative). -/
structure Change where
  workOrderId : String
  workOrderNumber : String
  oldStart : Nat
  newStart : Nat
  oldEnd : Nat
  newEnd : Nat
  deltaMinutes : Int
  deriving Repr, DecidableEq

/-- `ReflowResult` of `reflow/types.ts` (`explanation` is two fixed
strings and is omitted). -/
structure ReflowResult where
  updatedWorkOrders : List WorkOrder
  changes : List Change
  totalDelayMinutes : Int
  movedCount : Nat
  deriving Repr, DecidableEq

/-- JS `Map.get`. -/
def lookupAssoc {α : Type} : List (String × α) → String → Option α
  | [], _ => none
  | (k, v) :: rest, key => if k = key then some v else lookupAssoc rest key

/-- JS `Map.set`: update an existing key in place, else append. -/
def jsMapInsert {α : Type} (key : String) (v : α) : List (String × α) → List (String × α)
  | [] => [(key, v)]
  | (k, w) :: rest => if k = key then (k, v) :: rest else (k, w) :: jsMapInsert key v rest

/-- `new Map(entries)`: later entries with a duplicate key overwrite the
stored value, at the position of the first occurrence. -/
def jsMapOfList {α : Type} (l : List (String × α)) : List (String × α) :=
  l.foldl (fun m kv => jsMapInsert kv.1 kv.2 m) []

/-- JS `Set` of a list: dedup keeping the first occurrence. -/
def jsSetOfList (l : List String) : List String :=
  l.foldl (fun acc x => if x ∈ acc then acc else acc ++ [x]) []

/-! ### DAG ordering (`reflow/dag.ts`) -/

/-- The inner edge loop of `topoSortWorkOrders`: for each parent id of
`childId`, fail on an id outside the node set, else append the child to
the parent's adjacency list and bump the child's in-degree. -/
def addEdgesFor (childId : String) (nodes : List String) :
    List String → List (String × Int) → List (String × List String) →
    Option (List (String × Int) × List (String × List String))
  | [], inDeg, adj => some (inDeg, adj)
  | pid :: ps, inDeg, adj =>
    if pid ∈ nodes then
      let adj1 := jsMapInsert pid ((lookupAssoc adj pid).getD [] ++ [childId]) adj
      let inDeg1 := jsMapInsert childId ((lookupAssoc inDeg childId).getD 0 + 1) inDeg
      addEdgesFor childId nodes ps inDeg1 adj1
    else none

/-- The outer edge loop of `topoSortWorkOrders`. -/
def addEdges (nodes : List String) :
    List WorkOrder → List (String × Int) → List (String × List String) →
    Option (List (String × Int) × List (String × List String))
  | [], inDeg, adj => some (inDeg, adj)
  | wo :: rest, inDeg, adj =>
    match addEdgesFor wo.docId nodes wo.data.dependsOnWorkOrderIds inDeg adj with
    | none => none
    | some (inDeg1, adj1) => addEdges nodes rest inDeg1 adj1

/-- One child visit of Kahn's pop step: decrement the child's in-degree
(JS numbers, so through zero into negatives) and enqueue the child when
the decrement lands exactly on zero. -/
def kahnChildStep (st : List (String × Int) × List String) (child : String) :
    List (String × Int) × List String :=
  let d := (lookupAssoc st.1 child).getD 0 - 1
  (jsMapInsert child d st.1, if d = 0 then st.2 ++ [child] else st.2)

/-- Kahn's queue loop of `topoSortWorkOrders`.  The fuel is an upper
bound on queue pops (each node is enqueued at most once, plus one
enqueue per edge decrement reaching zero), so a well-fuelled call never
returns `none` with a loop still pending. -/
def kahnLoop (adj : List (String × List String)) :
    Nat → List (String × Int) → List String → List String → Option (List String)
  | _, _, [], result => some result
  | 0, _, _ :: _, _ => none
  | fuel + 1, inDeg, id :: queue, result =>
    let children := (lookupAssoc adj id).getD []
    let st := children.foldl kahnChildStep (inDeg, queue)
    kahnLoop adj fuel st.1 st.2 (result ++ [id])

/-- `topoSortWorkOrders` of `reflow/dag.ts`: Kahn topological sort;
`none` embeds the `UnknownDependency` and `CyclicDependency` errors. -/
def topoSortWorkOrders (workOrders : List WorkOrder) : Option (List String) :=
  let nodes := jsSetOfList (workOrders.map (·.docId))
  let inDeg0 : List (String × Int) := nodes.map fun id => (id, 0)
  let adj0 : List (String × List String) := nodes.map fun id => (id, [])
  match addEdges nodes workOrders inDeg0 adj0 with
  | none => none
  | some (inDeg, adj) =>
    let queue := (inDeg.filter fun p => p.2 = 0).map (·.1)
    let fuel := nodes.length + (workOrders.map fun w => w.data.dependsOnWorkOrderIds.length).sum + 1
    match kahnLoop adj fuel inDeg queue [] with
    | none => none
    | some result => if result.length = workOrders.length then some result else none

/-! ### Reflow driver (`reflow/reflow.service.ts`) -/

/-- `buildMaintenanceIntervals` of `constraint-checker.ts`. -/
def buildMaintenanceIntervals (wc : WorkCenter) : List Interval :=
  wc.data.maintenanceWindows.map fun m => { start := m.startDate, stop := m.stopDate }

/-- `buildOrderInterval` of `constraint-checker.ts`. -/
def buildOrderInterval (wo : WorkOrder) : Interval :=
  { start := wo.data.startDate, stop := wo.data.endDate }

/-- The work-order map built by the driver: deep clones keyed by docId
(cloning a plain value is the identity in the embedding). -/
def woMapOf (input : ReflowInput) : List (String × WorkOrder) :=
  jsMapOfList (input.workOrders.map fun w => (w.docId, w))

/-- The per-center blocked map seeded from maintenance windows. -/
def centerBlocked0 (input : ReflowInput) : List (String × List Interval) :=
  input.workCenters.foldl (fun m wc => jsMapInsert wc.docId (buildMaintenanceIntervals wc) m) []

/-- The maintenance-pinning loop of the driver: each maintenance order's
span is pushed onto its center's blocked list (re-sorted); a missing
center fails the call. -/
def pinMaintenance : List WorkOrder → List (String × List Interval) →
    Option (List (String × List Interval))
  | [], cb => some cb
  | wo :: rest, cb =>
    if wo.data.isMaintenance then
      match lookupAssoc cb wo.data.workCenterId with
      | none => none
      | some blocked =>
        pinMaintenance rest
          (jsMapInsert wo.data.workCenterId
            (sortIntervals (blocked ++ [buildOrderInterval wo])) cb)
    else pinMaintenance rest cb

/-- The blocked map as it stands when the driver's main placement loop
starts: maintenance windows plus pinned maintenance orders. -/
def pinnedBlockedOf (input : ReflowInput) : Option (List (String × List Interval)) :=
  pinMaintenance ((woMapOf input).map (·.2)) (centerBlocked0 input)

/-- The parent fold computing `earliest`: starting from the order's own
start date, take the max of the scheduled parents' end dates; a parent
missing from the scheduled map fails (`InternalOrderingViolation`). -/
def computeEarliestGo (wm : List (String × WorkOrder)) (sch : List String) :
    List String → Nat → Option Nat
  | [], acc => some acc
  | pid :: ps, acc =>
    if pid ∈ sch then
      match lookupAssoc wm pid with
      | some p =>
        computeEarliestGo wm sch ps (if acc < p.data.endDate then p.data.endDate else acc)
      | none => none
    else none

/-- `earliest` of the driver: the order's start date when it has no
dependencies, else the fold over its parents. -/
def computeEarliest (wm : List (String × WorkOrder)) (sch : List String)
    (wo : WorkOrder) : Option Nat :=
  if wo.data.dependsOnWorkOrderIds.isEmpty then some wo.data.startDate
  else computeEarliestGo wm sch wo.data.dependsOnWorkOrderIds wo.data.startDate

/-- The change record appended when a placement moved an order. -/
def mkChange (id : String) (old new : WorkOrder) : Change :=
  { workOrderId := id
    workOrderNumber := new.data.workOrderNumber
    oldStart := old.data.startDate
    newStart := new.data.startDate
    oldEnd := old.data.endDate
    newEnd := new.data.endDate
    deltaMinutes := (new.data.endDate : Int) - (old.data.endDate : Int) }

/-- The driver's main placement loop over the topological id order.
State: the work-order map (entries mutated as they are placed), the
per-center blocked map, the scheduled id list and the change list.
`none` embeds `UnknownWorkCenter`, `InternalOrderingViolation` and any
allocator failure. -/
def mainLoop (fuel : Nat) (wcMap : List (String × WorkCenter)) :
    List String → List (String × WorkOrder) → List (String × List Interval) →
    List String → List Change →
    Option (List (String × WorkOrder) × List String × List Change)
  | [], wm, _, sch, chs => some (wm, sch, chs)
  | id :: ids, wm, cb, sch, chs =>
    match lookupAssoc wm id with
    | none => none
    | some wo =>
      match lookupAssoc wcMap wo.data.workCenterId with
      | none => none
      | some wc =>
        if wo.data.isMaintenance then
          mainLoop fuel wcMap ids wm cb (sch ++ [id]) chs
        else
          match computeEarliest wm sch wo with
          | none => none
          | some earliest =>
            let total := wo.data.durationMinutes + wo.data.setupTimeMinutes.getD 0
            let blocked := sortIntervals ((lookupAssoc cb wc.docId).getD [])
            match scheduleWithShiftsAndBlocks fuel earliest total wc.data.shifts blocked with
            | none => none
            | some (s, e) =>
              let wo1 : WorkOrder :=
                { wo with data := { wo.data with startDate := s, endDate := e } }
              let wm1 := jsMapInsert id wo1 wm
              let cbNow := (lookupAssoc cb wc.docId).getD []
              let cb1 := jsMapInsert wc.docId (sortIntervals (cbNow ++ [buildOrderInterval wo1])) cb
              let chs1 :=
                if s ≠ wo.data.startDate ∨ e ≠ wo.data.endDate
                then chs ++ [mkChange id wo wo1] else chs
              mainLoop fuel wcMap ids wm1 cb1 (sch ++ [id]) chs1

/-- `ReflowService.reflow` of `reflow/reflow.service.ts`.  `fuel` bounds
the allocator's while-loop iterations per order; every error path of the
service is `none`. -/
def reflow (fuel : Nat) (input : ReflowInput) : Option ReflowResult :=
  let wcMap := jsMapOfList (input.workCenters.map fun w => (w.docId, w))
  let wm0 := woMapOf input
  match topoSortWorkOrders (wm0.map (·.2)) with
  | none => none
  | some topoIds =>
    match pinnedBlockedOf input with
    | none => none
    | some cb1 =>
      match mainLoop fuel wcMap topoIds wm0 cb1 [] [] with
      | none => none
      | some (wmF, schF, chs) =>
        let updated := topoIds.filterMap fun id =>
          if id ∈ schF then lookupAssoc wmF id else none
        some
          { updatedWorkOrders := updated
            changes := chs
            movedCount := chs.length
            totalDelayMinutes := chs.foldl (fun acc c => acc + max 0 c.deltaMinutes) 0 }

/-! ### Test-time validators (`reflow/constraint-checker.ts`), as Booleans:
`false` embeds a thrown violation (or missing work center). -/

/-- The per-center grouping of `validateNoWorkCenterOverlaps`. -/
def groupByCenter (wos : List WorkOrder) : List (String × List WorkOrder) :=
  wos.foldl
    (fun m wo =>
      jsMapInsert wo.data.workCenterId
        ((lookupAssoc m wo.data.workCenterId).getD [] ++ [wo]) m) []

/-- Pairwise check of consecutive sorted intervals. -/
def consecutiveNoOverlap : List Interval → Bool
  | [] => true
  | [_] => true
  | a :: b :: rest => !overlaps a b && consecutiveNoOverlap (b :: rest)

/-- `validateNoWorkCenterOverlaps` of `constraint-checker.ts`: group the
orders by work center, sort each group's spans by start, and require no
consecutive pair to overlap. -/
def validateNoWorkCenterOverlapsB (wos : List WorkOrder) : Bool :=
  (groupByCenter wos).all fun g =>
    consecutiveNoOverlap (sortIntervals (g.2.map buildOrderInterval))

/-- `startsInside` of `validateMaintenanceRespected`:
`start >= mStart && start < mEnd`. -/
def startsInside (t : Nat) (m : MaintenanceWindow) : Bool :=
  m.startDate ≤ t && t < m.stopDate

/-- `endsInside` of `validateMaintenanceRespected`:
`end > mStart && end <= mEnd`. -/
def endsInside (t : Nat) (m : MaintenanceWindow) : Bool :=
  m.startDate < t && t ≤ m.stopDate

/-- `validateMaintenanceRespected` of `constraint-checker.ts`: no order
may start inside, nor end inside, a maintenance window of its center. -/
def validateMaintenanceRespectedB (wos : List WorkOrder) (wcs : List WorkCenter) : Bool :=
  let wcMap := jsMapOfList (wcs.map fun w => (w.docId, w))
  wos.all fun wo =>
    match lookupAssoc wcMap wo.data.workCenterId with
    | none => false
    | some wc =>
      wc.data.maintenanceWindows.all fun m =>
        !startsInside wo.data.startDate m && !endsInside wo.data.endDate m

/-- Decidable form of spec invariant 3: every dependency edge `p → c`
has `c.start ≥ p.end`. -/
def depEdgesRespected (res : ReflowResult) : Bool :=
  res.updatedWorkOrders.all fun c =>
    c.data.dependsOnWorkOrderIds.all fun pid =>
      res.updatedWorkOrders.all fun p =>
        if p.docId = pid then decide (p.data.endDate ≤ c.data.startDate) else true

/-- Pairwise disjointness of a blocked list (hypothesis of the
allocator-contract claim). -/
def pairwiseDisjointB : List Interval → Bool
  | [] => true
  | b :: rest => rest.all (fun c => !overlaps b c) && pairwiseDisjointB rest

/-! ### Concrete inputs -/

/-- Monday–Friday 08:00–17:00 UTC, the `dayShift` table of
`sample-data/scenarios.ts`. -/
def dayShift : List Shift := [⟨1, 8, 17⟩, ⟨2, 8, 17⟩, ⟨3, 8, 17⟩, ⟨4, 8, 17⟩, ⟨5, 8, 17⟩]

/-- A minute instant on 2026-03-02 (a Monday). -/
def monT (hh mm : Nat) : Nat := isoMin 2026 3 2 hh mm

/-- A minute instant on 2026-03-03 (a Tuesday). -/
def tueT (hh mm : Nat) : Nat := isoMin 2026 3 3 hh mm

def idA : String := "A"

def idB : String := "B"

def idC : String := "C"

def idWc1 : String := "wc1"

/-- A work order on center `wc1` (no setup time). -/
def mkWo (id : String) (s e dur : Nat) (maint : Bool) (deps : List String) : WorkOrder :=
  ⟨id, ⟨id, idWc1, s, e, dur, maint, deps, none⟩⟩

/-- Center `wc1` of `scenarios.ts`: weekday shifts and the maintenance
window 2026-03-03T10:00–13:00Z. -/
def wc1 : WorkCenter := ⟨idWc1, ⟨dayShift, [⟨tueT 10 0, tueT 13 0⟩]⟩⟩

/-- Center `wc1` with no maintenance windows. -/
def wc1Plain : WorkCenter := ⟨idWc1, ⟨dayShift, []⟩⟩

/-- `scenario1_delayCascade` of `scenarios.ts`: A (08:00→10:00, 360 min),
B depends on A (120 min), C depends on B (120 min), all on 2026-03-02. -/
def scenario1 : ReflowInput :=
  ⟨[mkWo idA (monT 8 0) (monT 10 0) 360 false [],
    mkWo idB (monT 10 0) (monT 12 0) 120 false [idA],
    mkWo idC (monT 12 0) (monT 14 0) 120 false [idB]], [wc1]⟩

/-- Two non-maintenance orders on one center: A wants 10:00, 180 min;
B wants 09:30, 180 min, placed second, so its elapsed span encloses A's
pause-free span. -/
def overlapInput : ReflowInput :=
  ⟨[mkWo idA (monT 10 0) (monT 13 0) 180 false [],
    mkWo idB (monT 9 30) (monT 12 30) 180 false []], [wc1Plain]⟩

/-- Center `wc1` with the single maintenance window
2026-03-02T12:00–13:00Z. -/
def wc1MonNoon : WorkCenter := ⟨idWc1, ⟨dayShift, [⟨monT 12 0, monT 13 0⟩]⟩⟩

/-- One order of 120 min from 10:00 on a center whose maintenance window
starts exactly when the work completes (12:00). -/
def maintEndInput : ReflowInput :=
  ⟨[mkWo idA (monT 10 0) (monT 12 0) 120 false []], [wc1MonNoon]⟩

/-- A non-maintenance order A and a maintenance order B that depends on
A but is pinned earlier than A's end. -/
def maintChildInput : ReflowInput :=
  ⟨[mkWo idA (monT 8 0) (monT 9 0) 60 false [],
    mkWo idB (monT 6 0) (monT 7 0) 60 true [idA]], [wc1Plain]⟩

/-- Three pairwise-disjoint chained blocks on a Monday 08:00–17:00 shift. -/
def chainedBlocks : List Interval :=
  [⟨monT 8 0, monT 10 0⟩, ⟨monT 10 0, monT 12 0⟩, ⟨monT 12 0, monT 14 0⟩]

/-- The Monday-only shift table used by the allocator-level inputs. -/
def monShift : List Shift := [⟨1, 8, 17⟩]

/-! ### Symbolic one-step lemmas for the driver (used to stage concrete
runs and shared by several claims). -/

/-- One non-maintenance step of the driver's placement loop, with every
intermediate computation exposed as a hypothesis. -/
theorem mainLoop_cons_nonmaint (fuel : Nat) (wcMap : List (String × WorkCenter))
    (id : String) (ids : List String) (wm : List (String × WorkOrder))
    (cb : List (String × List Interval)) (sch : List String) (chs : List Change)
    (wo : WorkOrder) (wc : WorkCenter) (earliest s e : Nat) (wo1 : WorkOrder)
    (h1 : lookupAssoc wm id = some wo)
    (h2 : lookupAssoc wcMap wo.data.workCenterId = some wc)
    (h3 : wo.data.isMaintenance = false)
    (h4 : computeEarliest wm sch wo = some earliest)
    (h5 : scheduleWithShiftsAndBlocks fuel earliest
            (wo.data.durationMinutes + wo.data.setupTimeMinutes.getD 0)
            wc.data.shifts (sortIntervals ((lookupAssoc cb wc.docId).getD [])) = some (s, e))
    (h6 : wo1 = { wo with data := { wo.data with startDate := s, endDate := e } }) :
    mainLoop fuel wcMap (id :: ids) wm cb sch chs =
      mainLoop fuel wcMap ids (jsMapInsert id wo1 wm)
        (jsMapInsert wc.docId
          (sortIntervals ((lookupAssoc cb wc.docId).getD [] ++ [buildOrderInterval wo1])) cb)
        (sch ++ [id])
        (if s ≠ wo.data.startDate ∨ e ≠ wo.data.endDate then chs ++ [mkChange id wo wo1] else chs) := by
  subst h6
  simp only [mainLoop, h1, h2, h3, h4, h5, Bool.false_eq_true, if_false]

/-- Unfolding of `reflow` through its three stages. -/
theorem reflow_eq (fuel : Nat) (input : ReflowInput) (wcM : List (String × WorkCenter))
    (wm0 : List (String × WorkOrder)) (topoIds : List String)
    (cb1 : List (String × List Interval)) (wmF : List (String × WorkOrder))
    (schF : List String) (chs : List Change)
    (h0 : jsMapOfList (input.workCenters.map fun w => (w.docId, w)) = wcM)
    (hw : woMapOf input = wm0)
    (h1 : topoSortWorkOrders (wm0.map (·.2)) = some topoIds)
    (h2 : pinnedBlockedOf input = some cb1)
    (h3 : mainLoop fuel wcM topoIds wm0 cb1 [] [] = some (wmF, schF, chs)) :
    reflow fuel input = some
      { updatedWorkOrders := topoIds.filterMap fun id =>
          if id ∈ schF then lookupAssoc wmF id else none
        changes := chs
        movedCount := chs.length
        totalDelayMinutes := chs.foldl (fun acc c => acc + max 0 c.deltaMinutes) 0 } := by
  subst h0 hw
  simp only [reflow, h1, h2, h3]

/-! ### Literal run of scenario 1 -/

def woA0 : WorkOrder := mkWo idA (monT 8 0) (monT 10 0) 360 false []

def woB0 : WorkOrder := mkWo idB (monT 10 0) (monT 12 0) 120 false [idA]

def woC0 : WorkOrder := mkWo idC (monT 12 0) (monT 14 0) 120 false [idB]

def woA1 : WorkOrder := mkWo idA (monT 8 0) (monT 14 0) 360 false []

def woB1 : WorkOrder := mkWo idB (monT 14 0) (monT 16 0) 120 false [idA]

def woC1 : WorkOrder := mkWo idC (monT 16 0) (tueT 9 0) 120 false [idB]

def wmS0 : List (String × WorkOrder) := [(idA, woA0), (idB, woB0), (idC, woC0)]

def cbS1 : List (String × List Interval) := [(idWc1, [⟨tueT 10 0, tueT 13 0⟩])]

def wcMapS1 : List (String × WorkCenter) := [(idWc1, wc1)]

def wmS1 : List (String × WorkOrder) := [(idA, woA1), (idB, woB0), (idC, woC0)]

def cbS2 : List (String × List Interval) :=
  [(idWc1, [⟨monT 8 0, monT 14 0⟩, ⟨tueT 10 0, tueT 13 0⟩])]

def chsS1 : List Change := [⟨idA, idA, monT 8 0, monT 8 0, monT 10 0, monT 14 0, 240⟩]

def wmSF : List (String × WorkOrder) := [(idA, woA1), (idB, woB1), (idC, woC1)]

def chsSF : List Change :=
  [⟨idA, idA, monT 8 0, monT 8 0, monT 10 0, monT 14 0, 240⟩,
   ⟨idB, idB, monT 10 0, monT 14 0, monT 12 0, monT 16 0, 240⟩,
   ⟨idC, idC, monT 12 0, monT 16 0, monT 14 0, tueT 9 0, 1140⟩]

/-- The full result of `reflow` on scenario 1. -/
def resS1 : ReflowResult := ⟨[woA1, woB1, woC1], chsSF, 1620, 3⟩

set_option maxHeartbeats 1600000 in
/-- Evaluation of the embedded driver on scenario 1, staged through one
symbolic placement step to keep kernel reduction tractable. -/
theorem reflowS1_eq : reflow 10 scenario1 = some resS1 := by
  have hA := mainLoop_cons_nonmaint 10 wcMapS1 idA [idB, idC] wmS0 cbS1 [] []
    woA0 wc1 (monT 8 0) (monT 8 0) (monT 14 0) woA1
    (by decide) (by decide) (by decide) (by decide) (by decide) (by decide)
  have hwm : jsMapInsert idA woA1 wmS0 = wmS1 := by decide
  have hcb : jsMapInsert wc1.docId
      (sortIntervals ((lookupAssoc cbS1 wc1.docId).getD [] ++ [buildOrderInterval woA1])) cbS1
      = cbS2 := by decide
  have hch : (if monT 8 0 ≠ woA0.data.startDate ∨ monT 14 0 ≠ woA0.data.endDate
      then ([] : List Change) ++ [mkChange idA woA0 woA1] else []) = chsS1 := by decide
  rw [hwm, hcb, hch] at hA
  have h3 : mainLoop 10 wcMapS1 [idA, idB, idC] wmS0 cbS1 [] [] =
      some (wmSF, [idA, idB, idC], chsSF) := by
    rw [show ([idA, idB, idC] : List String) = idA :: [idB, idC] from rfl, hA]
    decide
  have h := reflow_eq 10 scenario1 wcMapS1 wmS0 [idA, idB, idC] cbS1 wmSF [idA, idB, idC] chsSF
    (by decide) (by decide) (by decide) (by decide) h3
  rw [h]
  decide

/-! ### Claim theorems on concrete runs -/

/-- C1.  The code violates the same-center non-overlap invariant: on
`overlapInput` the driver returns a result in which order B's span
2026-03-02 [09:30, 15:30) encloses order A's span [10:00, 13:00), and
the repo's own `validateNoWorkCenterOverlaps` check rejects the
returned schedule. -/
theorem reflow_sameCenter_overlap_bug :
    (reflow 10 overlapInput).map
      (fun r => validateNoWorkCenterOverlapsB r.updatedWorkOrders) = some false ∧
    (reflow 10 overlapInput).map
      (fun r => r.updatedWorkOrders.any fun a => r.updatedWorkOrders.any fun b =>
        !(a.docId == b.docId) && a.data.workCenterId == b.data.workCenterId &&
          overlaps (buildOrderInterval a) (buildOrderInterval b)) = some true := by
  refine ⟨by decide, by decide⟩

/-- C2.  The allocator contract fails on pairwise-disjoint blocks: with
three chained blocks 08:00–10:00, 10:00–12:00, 12:00–14:00 on a Monday
08:00–17:00 shift, a 60-minute order asked to start at 09:00 is given
start 12:00 — an instant inside the third blocked interval — because
`pushOutOfBlocked` is a single pass; the minutes 12:00–13:00 are
consumed inside that block.  The claim requires start = 14:00. -/
theorem allocator_starts_inside_block_bug :
    pairwiseDisjointB chainedBlocks = true ∧
    scheduleWithShiftsAndBlocks 10 (monT 9 0) 60 monShift chainedBlocks
      = some (monT 12 0, monT 14 0) ∧
    chainedBlocks.any (fun b => b.start ≤ monT 12 0 && monT 12 0 < b.stop) = true := by
  refine ⟨by decide, by decide, by decide⟩

/-- C3.  The maintenance-boundary invariant fails: on `maintEndInput`
the order's last working minute ends exactly at the maintenance start
12:00, and the trailing `pushOutOfBlocked` moves the returned end to the
maintenance end 13:00, which lies in `(mStart, mEnd]`; the repo's own
`validateMaintenanceRespected` check rejects the returned schedule. -/
theorem reflow_end_inside_maintenance_bug :
    (reflow 10 maintEndInput).map
      (fun r => validateMaintenanceRespectedB r.updatedWorkOrders maintEndInput.workCenters)
      = some false ∧
    (reflow 10 maintEndInput).map
      (fun r => r.updatedWorkOrders.any fun o =>
        !o.data.isMaintenance && endsInside o.data.endDate ⟨monT 12 0, monT 13 0⟩)
      = some true := by
  refine ⟨by decide, by decide⟩

/-- C4 counterexample.  A maintenance order that depends on a
non-maintenance parent keeps its pinned dates, so the dependency
invariant `c.start ≥ p.end` fails as stated: on `maintChildInput` the
driver returns a result whose edge B → A has B.start = 06:00 <
A.end = 09:00. -/
theorem dependency_maintenance_child_cex :
    (reflow 10 maintChildInput).map depEdgesRespected = some false := by
  decide

/-- C6 counterexample.  On the S1 delay-cascade input the driver
returns a result in which no order A ends at the claimed 16:00 (360
worked minutes from 08:00 end at 14:00). -/
theorem scenario1_claimed_times_cex :
    (reflow 10 scenario1).map
      (fun r => r.updatedWorkOrders.any fun o =>
        o.docId == idA && o.data.endDate == monT 16 0) = some false := by
  rw [reflowS1_eq]
  decide

/-- C6 amended.  On the S1 delay-cascade input the driver schedules
A as 2026-03-02 08:00→14:00, B as 14:00→16:00 and C as
16:00→2026-03-03 09:00. -/
theorem scenario1_actual_times :
    (reflow 10 scenario1).map
      (fun r => r.updatedWorkOrders.map fun o => (o.docId, o.data.startDate, o.data.endDate))
      = some [(idA, monT 8 0, monT 14 0), (idB, monT 14 0, monT 16 0),
              (idC, monT 16 0, tueT 9 0)] := by
  rw [reflowS1_eq]
  decide

/-- With `remaining = 0` the allocation loop returns immediately. -/
theorem schedLoop_zero (shifts : List Shift) (bs : List Interval) (fuel cursor : Nat)
    (ss : Option Nat) : schedLoop shifts bs fuel cursor 0 ss = some (ss, cursor) := by
  rw [schedLoop.eq_def]
  simp

/-- With `remaining = 0` the `part_001` loop returns immediately. -/
theorem schedLoopV1_zero (shifts : List Shift) (bs : List Interval) (fuel cursor : Nat) :
    schedLoopV1 shifts bs fuel cursor 0 = some cursor := by
  rw [schedLoopV1.eq_def]
  simp

/-- C7 counterexample.  With `durationMinutes = 0` and a start instant
inside a blocked interval the allocator does not return
`(startISO, startISO)`: the end is the pushed cursor (the block end). -/
theorem zero_duration_cex :
    scheduleWithShiftsAndBlocks 5 (monT 10 30) 0 [] [⟨monT 10 0, monT 11 0⟩]
      ≠ some (monT 10 30, monT 10 30) := by
  decide

/-- C7 amended.  With `durationMinutes = 0` the allocation loop body is
never entered; the returned start is the raw `startISO` and the
returned end is the initially pushed cursor
`pushOutOfBlocked startISO (sortIntervals blocked)` — so start = end =
`startISO` exactly when `startISO` is outside every blocked interval. -/
theorem zero_duration_amended (fuel startT : Nat) (shifts : List Shift)
    (blocked : List Interval) :
    scheduleWithShiftsAndBlocks fuel startT 0 shifts blocked =
      some (startT, pushOutOfBlocked startT (sortIntervals blocked)) := by
  simp only [scheduleWithShiftsAndBlocks, schedLoop_zero]
  rfl

/-- C10 counterexample.  The two allocator implementations are not
extensionally equal: started at 06:00 before the Monday shift with 60
minutes and no blocks, the `part_001` variant returns
(06:00, 07:00) — counting pre-shift minutes as work — while the
`date-utils.ts` variant clamps to the shift start and returns
(08:00, 09:00). -/
theorem allocator_variants_differ_cex :
    scheduleWithShiftsAndBlocksV1 10 (monT 6 0) 60 monShift []
      ≠ scheduleWithShiftsAndBlocks 10 (monT 6 0) 60 monShift [] := by
  decide

/-- C10 amended.  The two variants agree on every input with
`durationMinutes = 0` whose start instant is outside every blocked
interval; in general they differ because the `part_001` variant fixes
its reported start before the loop and never clamps the cursor to the
shift-window start. -/
theorem allocator_variants_agree_zero_duration (fuel startT : Nat)
    (shifts : List Shift) (blocked : List Interval)
    (h : pushOutOfBlocked startT (sortIntervals blocked) = startT) :
    scheduleWithShiftsAndBlocksV1 fuel startT 0 shifts blocked =
      scheduleWithShiftsAndBlocks fuel startT 0 shifts blocked := by
  simp only [scheduleWithShiftsAndBlocksV1, scheduleWithShiftsAndBlocks, h,
    schedLoop_zero, schedLoopV1_zero]
  rfl

/-- Witness for the C10 amended theorem at a concrete input. -/
theorem allocator_variants_agree_zero_duration_witness :
    pushOutOfBlocked (monT 10 0) (sortIntervals [⟨monT 11 0, monT 12 0⟩]) = monT 10 0 ∧
    scheduleWithShiftsAndBlocksV1 3 (monT 10 0) 0 monShift [⟨monT 11 0, monT 12 0⟩]
      = scheduleWithShiftsAndBlocks 3 (monT 10 0) 0 monShift [⟨monT 11 0, monT 12 0⟩] :=
  ⟨by decide,
   allocator_variants_agree_zero_duration 3 (monT 10 0) monShift [⟨monT 11 0, monT 12 0⟩]
     (by decide)⟩

/-! ### C9: the shift-window resolver against the spec's day-by-day rule -/

/-- Modelled from the spec's wording of the shift-window resolver
(section 4.2): the result of examining day `d` of the horizon.  For the
cursor's own day, the first shift sorted by start whose end is after the
cursor, clamped to `[max(cursor, shift.start), shift.end)`; for a later
day, the earliest full shift window if the day has any shifts. -/
def specDayWindow (cursor : Nat) (shifts : List Shift) (d : Nat) : Option Interval :=
  let day := (cursor / minutesPerDay + d) * minutesPerDay
  let ws := dayWindowsFor day (dayOfWeekOf day) shifts
  if d = 0 then
    (ws.find? fun w => cursor < w.stop).map fun w => { start := max cursor w.start, stop := w.stop }
  else ws.head?

/-- One day of the scan loop matches the spec's per-day rule. -/
theorem findNextShiftWindowGo_succ (cursor : Nat) (shifts : List Shift) (d r : Nat) :
    findNextShiftWindowGo cursor shifts d (r + 1) =
      match specDayWindow cursor shifts d with
      | some w => some w
      | none => findNextShiftWindowGo cursor shifts (d + 1) r := by
  rw [findNextShiftWindowGo.eq_def]
  dsimp only
  by_cases hd : d = 0
  · subst hd
    simp only [Nat.add_zero]
    cases hws : dayWindowsFor (cursor / minutesPerDay * minutesPerDay)
        (dayOfWeekOf (cursor / minutesPerDay * minutesPerDay)) shifts with
    | nil => simp [specDayWindow, hws]
    | cons w ws =>
      cases hf : (w :: ws).find? fun v => cursor < v.stop with
      | none => simp [specDayWindow, hws, hf]
      | some v => simp [specDayWindow, hws, hf]
  · cases hws : dayWindowsFor ((cursor / minutesPerDay + d) * minutesPerDay)
        (dayOfWeekOf ((cursor / minutesPerDay + d) * minutesPerDay)) shifts with
    | nil => simp [specDayWindow, hws, hd]
    | cons w ws => simp [specDayWindow, hws, hd]

/-- The day-scan loop equals a first-some scan of the per-day rule. -/
theorem findNextShiftWindowGo_eq (cursor : Nat) (shifts : List Shift) :
    ∀ r d, findNextShiftWindowGo cursor shifts d r =
      (List.range' d r).findSome? (specDayWindow cursor shifts) := by
  intro r
  induction r with
  | zero => intro d; rfl
  | succ r ih =>
    intro d
    rw [List.range'_succ, List.findSome?_cons, findNextShiftWindowGo_succ]
    cases hs : specDayWindow cursor shifts d with
    | none => simpa using ih (d + 1)
    | some w => simp

/-- C9.  `findNextShiftWindow` scans 14 consecutive days from the
cursor's day and returns the first day's match under the spec's rule —
for the cursor's own day the first start-sorted shift whose end is after
the cursor as `[max(cursor, shift.start), shift.end)`, for a later day
its earliest full window — and it fails (`none`) exactly when all 14
days yield no match, in particular whenever the shift table is empty. -/
theorem findNextShiftWindow_spec (cursor : Nat) (shifts : List Shift) :
    findNextShiftWindow cursor shifts =
      (List.range 14).findSome? (specDayWindow cursor shifts) ∧
    (findNextShiftWindow cursor shifts = none ↔
      ∀ d < 14, specDayWindow cursor shifts d = none) ∧
    (shifts = [] → findNextShiftWindow cursor shifts = none) := by
  have hnil : ∀ day dow, dayWindowsFor day dow ([] : List Shift) = [] := fun _ _ => rfl
  have hempty : ∀ d, specDayWindow cursor [] d = none := by
    intro d
    by_cases hd : d = 0 <;> simp [specDayWindow, hnil, hd]
  have hmain : findNextShiftWindow cursor shifts =
      (List.range 14).findSome? (specDayWindow cursor shifts) := by
    unfold findNextShiftWindow
    by_cases hs : shifts.isEmpty
    · have h0 : shifts = [] := List.isEmpty_iff.mp hs
      subst h0
      rw [if_pos hs]
      symm
      rw [List.findSome?_eq_none_iff]
      intro d _
      exact hempty d
    · rw [if_neg hs, findNextShiftWindowGo_eq, List.range_eq_range']
  refine ⟨hmain, ?_, ?_⟩
  · rw [hmain, List.findSome?_eq_none_iff]
    constructor
    · intro h d hd
      exact h d (List.mem_range.mpr hd)
    · intro h x hx
      exact h x (List.mem_range.mp hx)
  · intro h
    subst h
    rfl

/-! ### Allocator monotonicity: the reported start never precedes the
requested start instant. -/

theorem le_pushOutOfBlocked (c : Nat) (l : List Interval) : c ≤ pushOutOfBlocked c l := by
  induction l with
  | nil => exact Nat.le_refl c
  | cons b rest ih =>
    rw [pushOutOfBlocked]
    split
    · next h => exact Nat.le_of_lt h.2
    · exact ih

theorem findCuttingBlock_lt (cursor shiftEnd : Nat) (l : List Interval) (b : Interval)
    (h : findCuttingBlock cursor shiftEnd l = some b) : cursor < b.stop := by
  induction l with
  | nil => exact absurd h (by simp [findCuttingBlock])
  | cons x rest ih =>
    rw [findCuttingBlock] at h
    split at h
    · exact ih h
    · split at h
      · exact absurd h (by simp)
      · next h1 _ =>
        cases h
        omega

theorem mem_insertByStart {x a : Interval} {l : List Interval} :
    x ∈ insertByStart a l ↔ x = a ∨ x ∈ l := by
  induction l with
  | nil => simp [insertByStart]
  | cons y ys ih =>
    rw [insertByStart]
    split
    · simp
    · simp [ih]
      tauto

theorem mem_sortIntervals {x : Interval} {l : List Interval} :
    x ∈ sortIntervals l ↔ x ∈ l := by
  induction l with
  | nil => simp [sortIntervals]
  | cons y ys ih =>
    show x ∈ insertByStart y (sortIntervals ys) ↔ _
    rw [mem_insertByStart, ih]
    simp

theorem dayWindowsFor_le_stop (day dow : Nat) (shifts : List Shift) (w : Interval)
    (h : w ∈ dayWindowsFor day dow shifts) : day ≤ w.stop := by
  rw [dayWindowsFor, mem_sortIntervals] at h
  obtain ⟨s, _, rfl⟩ := List.mem_map.mp h
  exact Nat.le_add_right day _

theorem lt_day_mul (cursor d : Nat) (hd : 1 ≤ d) :
    cursor < (cursor / minutesPerDay + d) * minutesPerDay := by
  simp only [minutesPerDay]
  omega

theorem specDayWindow_lt_stop (cursor : Nat) (shifts : List Shift) (d : Nat) (w : Interval)
    (h : specDayWindow cursor shifts d = some w) : cursor < w.stop := by
  rw [specDayWindow] at h
  by_cases hd : d = 0
  · subst hd
    rw [if_pos rfl] at h
    obtain ⟨v, hv, rfl⟩ := Option.map_eq_some'.mp h
    have := List.find?_some hv
    simpa using this
  · rw [if_neg hd] at h
    have hmem : w ∈ dayWindowsFor ((cursor / minutesPerDay + d) * minutesPerDay)
        (dayOfWeekOf ((cursor / minutesPerDay + d) * minutesPerDay)) shifts :=
      List.mem_of_mem_head? h
    have h1 := dayWindowsFor_le_stop _ _ _ _ hmem
    have h2 := lt_day_mul cursor d (Nat.one_le_iff_ne_zero.mpr hd)
    omega

theorem findNextShiftWindowGo_lt_stop (cursor : Nat) (shifts : List Shift) :
    ∀ r d w, findNextShiftWindowGo cursor shifts d r = some w → cursor < w.stop := by
  intro r
  induction r with
  | zero => intro d w h; exact absurd h (by rw [findNextShiftWindowGo]; simp)
  | succ r ih =>
    intro d w h
    rw [findNextShiftWindowGo_succ] at h
    cases hs : specDayWindow cursor shifts d with
    | none => rw [hs] at h; exact ih _ _ h
    | some v =>
      rw [hs] at h
      cases h
      exact specDayWindow_lt_stop cursor shifts d _ hs

theorem findNextShiftWindow_lt_stop (cursor : Nat) (shifts : List Shift) (w : Interval)
    (h : findNextShiftWindow cursor shifts = some w) : cursor < w.stop := by
  rw [findNextShiftWindow] at h
  split at h
  · exact absurd h (by simp)
  · exact findNextShiftWindowGo_lt_stop cursor shifts 14 0 w h

theorem schedLoop_start_ge (shifts : List Shift) (bs : List Interval) (t : Nat) :
    ∀ fuel cursor remaining ss res,
      schedLoop shifts bs fuel cursor remaining ss = some res →
      t ≤ cursor → (∀ v, ss = some v → t ≤ v) →
      ∀ v, res.1 = some v → t ≤ v := by
  intro fuel
  induction fuel with
  | zero =>
    intro cursor remaining ss res h hc hss v hv
    rw [schedLoop.eq_def] at h
    dsimp only at h
    by_cases hrem : remaining = 0
    · rw [if_pos hrem] at h
      cases h
      exact hss v hv
    · rw [if_neg hrem] at h
      exact absurd h (by simp)
  | succ fuel ih =>
    intro cursor remaining ss res h hc hss v hv
    rw [schedLoop.eq_def] at h
    dsimp only at h
    by_cases hrem : remaining = 0
    · rw [if_pos hrem] at h
      cases h
      exact hss v hv
    · rw [if_neg hrem] at h
      cases hw : findNextShiftWindow cursor shifts with
      | none =>
        rw [hw] at h
        exact absurd h (by simp)
      | some w =>
        rw [hw] at h
        have hwstop : cursor < w.stop := findNextShiftWindow_lt_stop cursor shifts w hw
        dsimp only at h
        set c1 := max cursor w.start with hc1
        set c2 := pushOutOfBlocked c1 bs with hc2
        set c3 := max c2 w.start with hc3
        have hc3ge : t ≤ c3 := by
          have g1 : cursor ≤ c1 := Nat.le_max_left _ _
          have g2 : c1 ≤ c2 := hc2 ▸ le_pushOutOfBlocked _ _
          have g3 : c2 ≤ c3 := Nat.le_max_left _ _
          omega
        by_cases hpast : w.stop ≤ c3
        · rw [if_pos hpast] at h
          exact ih (w.stop + 1) remaining ss res h (by omega) hss v hv
        · rw [if_neg hpast] at h
          have hssnew : ∀ u, (match ss with
              | some x => some x
              | none => some c3) = some u → t ≤ u := by
            intro u hu
            cases ss with
            | some x =>
              cases hu
              exact hss _ rfl
            | none =>
              cases hu
              exact hc3ge
          cases hnb : findCuttingBlock c3 w.stop bs with
          | some b =>
            rw [hnb] at h
            have hblt : c3 < b.stop := findCuttingBlock_lt _ _ _ _ hnb
            by_cases hfe : freeEndOf c3 w.stop (some b) ≤ c3
            · rw [if_pos hfe] at h
              exact ih b.stop remaining _ res h (by omega) hssnew v hv
            · rw [if_neg hfe] at h
              by_cases hfm : freeEndOf c3 w.stop (some b) - c3 = 0
              · rw [if_pos hfm] at h
                exact ih _ remaining _ res h (by omega) hssnew v hv
              · rw [if_neg hfm] at h
                have hcons : c3 ≤ pushOutOfBlocked
                    (c3 + min remaining (freeEndOf c3 w.stop (some b) - c3)) bs := by
                  have := le_pushOutOfBlocked
                    (c3 + min remaining (freeEndOf c3 w.stop (some b) - c3)) bs
                  omega
                exact ih _ _ _ res h (by omega) hssnew v hv
          | none =>
            rw [hnb] at h
            by_cases hfe : freeEndOf c3 w.stop none ≤ c3
            · rw [if_pos hfe] at h
              exact ih (w.stop + 1) remaining _ res h (by omega) hssnew v hv
            · rw [if_neg hfe] at h
              by_cases hfm : freeEndOf c3 w.stop none - c3 = 0
              · rw [if_pos hfm] at h
                exact ih _ remaining _ res h (by omega) hssnew v hv
              · rw [if_neg hfm] at h
                have hcons : c3 ≤ pushOutOfBlocked
                    (c3 + min remaining (freeEndOf c3 w.stop none - c3)) bs := by
                  have := le_pushOutOfBlocked
                    (c3 + min remaining (freeEndOf c3 w.stop none - c3)) bs
                  omega
                exact ih _ _ _ res h (by omega) hssnew v hv

theorem scheduleWithShiftsAndBlocks_start_ge (fuel startT dur : Nat) (shifts : List Shift)
    (blocked : List Interval) (s e : Nat)
    (h : scheduleWithShiftsAndBlocks fuel startT dur shifts blocked = some (s, e)) :
    startT ≤ s := by
  rw [scheduleWithShiftsAndBlocks] at h
  cases hl : schedLoop shifts (sortIntervals blocked) fuel
      (pushOutOfBlocked startT (sortIntervals blocked)) dur none with
  | none =>
    rw [hl] at h
    exact absurd h (by simp)
  | some p =>
    rw [hl] at h
    obtain ⟨ss, endC⟩ := p
    dsimp only at h
    simp only [Option.some.injEq, Prod.mk.injEq] at h
    obtain ⟨hs, he⟩ := h
    subst hs
    cases ss with
    | none => exact Nat.le_refl startT
    | some v =>
      exact schedLoop_start_ge shifts (sortIntervals blocked) startT fuel
        (pushOutOfBlocked startT (sortIntervals blocked)) dur none (some v, endC) hl
        (le_pushOutOfBlocked _ _) (by intro u hu; cases hu) v rfl

/-! ### JS map and set lemmas, and uniqueness of the topological order -/

theorem lookupAssoc_jsMapInsert_self {α : Type} (k : String) (v : α) (m : List (String × α)) :
    lookupAssoc (jsMapInsert k v m) k = some v := by
  induction m with
  | nil => simp [jsMapInsert, lookupAssoc]
  | cons p rest ih =>
    obtain ⟨k1, v1⟩ := p
    rw [jsMapInsert]
    by_cases hk : k1 = k
    · subst hk
      simp [lookupAssoc]
    · rw [if_neg hk, lookupAssoc, if_neg hk]
      exact ih

theorem lookupAssoc_jsMapInsert_ne {α : Type} (k j : String) (v : α) (m : List (String × α))
    (h : k ≠ j) : lookupAssoc (jsMapInsert k v m) j = lookupAssoc m j := by
  induction m with
  | nil => simp [jsMapInsert, lookupAssoc, h]
  | cons p rest ih =>
    obtain ⟨k1, v1⟩ := p
    rw [jsMapInsert]
    by_cases hk : k1 = k
    · subst hk
      simp only [lookupAssoc]
      simp only [if_neg h]
    · rw [if_neg hk]
      simp only [lookupAssoc]
      by_cases hj : k1 = j
      · rw [if_pos hj, if_pos hj]
      · rw [if_neg hj, if_neg hj]
        exact ih

/-- The keys of an association list. -/
def mapKeys {α : Type} (m : List (String × α)) : List String := m.map Prod.fst

theorem mapKeys_jsMapInsert {α : Type} (k : String) (v : α) (m : List (String × α)) :
    mapKeys (jsMapInsert k v m) = if k ∈ mapKeys m then mapKeys m else mapKeys m ++ [k] := by
  induction m with
  | nil => simp [jsMapInsert, mapKeys]
  | cons p rest ih =>
    obtain ⟨k1, v1⟩ := p
    rw [jsMapInsert]
    by_cases hk : k1 = k
    · subst hk
      simp [mapKeys]
    · rw [if_neg hk]
      simp only [mapKeys, List.map_cons] at ih ⊢
      rw [ih]
      by_cases hmem : k ∈ rest.map Prod.fst
      · simp [hmem, Ne.symm hk]
      · simp [hmem, Ne.symm hk]

theorem keysNodup_jsMapInsert {α : Type} (k : String) (v : α) (m : List (String × α))
    (h : (mapKeys m).Nodup) : (mapKeys (jsMapInsert k v m)).Nodup := by
  rw [mapKeys_jsMapInsert]
  by_cases hmem : k ∈ mapKeys m
  · rw [if_pos hmem]; exact h
  · rw [if_neg hmem]
    simp [List.nodup_append, h, hmem]

theorem lookupAssoc_of_mem {α : Type} {m : List (String × α)} {k : String} {v : α}
    (hn : (mapKeys m).Nodup) (hm : (k, v) ∈ m) : lookupAssoc m k = some v := by
  induction m with
  | nil => cases hm
  | cons p rest ih =>
    obtain ⟨k1, v1⟩ := p
    simp only [mapKeys, List.map_cons, List.nodup_cons] at hn
    rw [lookupAssoc]
    rcases List.mem_cons.mp hm with heq | htail
    · cases heq
      rw [if_pos rfl]
    · by_cases hk : k1 = k
      · subst hk
        exfalso
        exact hn.1 (List.mem_map.mpr ⟨(k1, v), htail, rfl⟩)
      · rw [if_neg hk]
        exact ih hn.2 htail

theorem jsSetOfList_nodup_aux (l acc : List String) (h : acc.Nodup) :
    (l.foldl (fun acc x => if x ∈ acc then acc else acc ++ [x]) acc).Nodup := by
  induction l generalizing acc with
  | nil => exact h
  | cons x xs ih =>
    rw [List.foldl_cons]
    by_cases hx : x ∈ acc
    · rw [if_pos hx]; exact ih acc h
    · rw [if_neg hx]
      refine ih _ ?_
      simp [List.nodup_append, h, hx]

theorem jsSetOfList_nodup (l : List String) : (jsSetOfList l).Nodup :=
  jsSetOfList_nodup_aux l [] List.nodup_nil

/-- Invariant carried by the Kahn queue loop: queue and emitted result
hold pairwise-distinct ids, and an id with a strictly positive recorded
in-degree is in neither. -/
def KahnInv (inDeg : List (String × Int)) (queue result : List String) : Prop :=
  (queue ++ result).Nodup ∧
  ∀ j d, lookupAssoc inDeg j = some d → 0 < d → j ∉ queue ∧ j ∉ result

theorem kahnChildStep_inv (result : List String) :
    ∀ (children : List String) (inDeg : List (String × Int)) (queue : List String),
      KahnInv inDeg queue result →
      KahnInv (children.foldl kahnChildStep (inDeg, queue)).1
        (children.foldl kahnChildStep (inDeg, queue)).2 result := by
  intro children
  induction children with
  | nil => intro inDeg queue h; exact h
  | cons c cs ih =>
    intro inDeg queue h
    obtain ⟨hnd, hdeg⟩ := h
    rw [List.foldl_cons]
    have hstep : kahnChildStep (inDeg, queue) c =
        (jsMapInsert c ((lookupAssoc inDeg c).getD 0 - 1) inDeg,
         if (lookupAssoc inDeg c).getD 0 - 1 = 0 then queue ++ [c] else queue) := rfl
    rw [hstep]
    by_cases hd : (lookupAssoc inDeg c).getD 0 - 1 = 0
    · -- the decrement lands on 0: c had in-degree 1, gets enqueued
      rw [if_pos hd, hd]
      have hc : lookupAssoc inDeg c = some 1 := by
        cases hl : lookupAssoc inDeg c with
        | none => rw [hl] at hd; simp at hd
        | some d0 =>
          rw [hl] at hd
          simp only [Option.getD_some] at hd
          have : d0 = 1 := by omega
          rw [this]
      have hcnot := hdeg c 1 hc (by omega)
      refine ih _ _ ⟨?_, ?_⟩
      · have hperm : (queue ++ [c] ++ result).Perm (c :: (queue ++ result)) := by
          rw [List.append_assoc]
          exact List.perm_middle
        refine hperm.nodup_iff.mpr ?_
        rw [List.nodup_cons]
        refine ⟨?_, hnd⟩
        intro hmem
        rcases List.mem_append.mp hmem with h1 | h2
        · exact hcnot.1 h1
        · exact hcnot.2 h2
      · intro j d hj hdpos
        by_cases hcj : c = j
        · subst hcj
          rw [lookupAssoc_jsMapInsert_self] at hj
          cases hj
          omega
        · rw [lookupAssoc_jsMapInsert_ne _ _ _ _ hcj] at hj
          have hold := hdeg j d hj hdpos
          constructor
          · intro hmem
            rcases List.mem_append.mp hmem with h1 | h2
            · exact hold.1 h1
            · rw [List.mem_singleton] at h2
              exact hcj h2.symm
          · exact hold.2
    · -- decrement does not land on 0: queue unchanged
      rw [if_neg hd]
      refine ih _ _ ⟨hnd, ?_⟩
      intro j d hj hdpos
      by_cases hcj : c = j
      · subst hcj
        rw [lookupAssoc_jsMapInsert_self] at hj
        cases hj
        cases hl : lookupAssoc inDeg c with
        | none =>
          rw [hl] at hdpos
          simp at hdpos
        | some d0 =>
          rw [hl] at hdpos
          simp only [Option.getD_some] at hdpos
          exact hdeg c d0 hl (by omega)
      · rw [lookupAssoc_jsMapInsert_ne _ _ _ _ hcj] at hj
        exact hdeg j d hj hdpos

theorem kahnLoop_nodup (adj : List (String × List String)) :
    ∀ (fuel : Nat) (inDeg : List (String × Int)) (queue result res : List String),
      kahnLoop adj fuel inDeg queue result = some res →
      KahnInv inDeg queue result →
      res.Nodup := by
  intro fuel
  induction fuel with
  | zero =>
    intro inDeg queue result res h hinv
    cases queue with
    | nil =>
      cases h
      exact (List.nodup_append.mp hinv.1).2.1
    | cons id q => exact absurd h (by rw [kahnLoop]; simp)
  | succ fuel ih =>
    intro inDeg queue result res h hinv
    cases queue with
    | nil =>
      cases h
      exact (List.nodup_append.mp hinv.1).2.1
    | cons id q =>
      rw [kahnLoop] at h
      obtain ⟨hnd, hdeg⟩ := hinv
      have hinv2 : KahnInv inDeg q (result ++ [id]) := by
        constructor
        · have hperm : (q ++ (result ++ [id])).Perm (id :: (q ++ result)) := by
            rw [← List.append_assoc]
            exact List.perm_append_singleton id (q ++ result)
          refine hperm.nodup_iff.mpr ?_
          simpa using hnd
        · intro j d hj hdpos
          have := hdeg j d hj hdpos
          constructor
          · intro hmem; exact this.1 (List.mem_cons_of_mem id hmem)
          · intro hmem
            rcases List.mem_append.mp hmem with h1 | h2
            · exact this.2 h1
            · rw [List.mem_singleton] at h2
              exact this.1 (h2 ▸ List.mem_cons_self id q)
      have hstep := kahnChildStep_inv (result ++ [id]) ((lookupAssoc adj id).getD []) inDeg q hinv2
      exact ih _ _ _ res h hstep

theorem addEdgesFor_keysNodup (cid : String) (nodes : List String) :
    ∀ (ps : List String) (inDeg : List (String × Int)) (adj : List (String × List String))
      (inDeg2 : List (String × Int)) (adj2 : List (String × List String)),
      addEdgesFor cid nodes ps inDeg adj = some (inDeg2, adj2) →
      (mapKeys inDeg).Nodup → (mapKeys inDeg2).Nodup := by
  intro ps
  induction ps with
  | nil =>
    intro inDeg adj inDeg2 adj2 h hn
    rw [addEdgesFor] at h
    cases h
    exact hn
  | cons pid rest ih =>
    intro inDeg adj inDeg2 adj2 h hn
    rw [addEdgesFor] at h
    split at h
    · exact ih _ _ _ _ h (keysNodup_jsMapInsert _ _ _ hn)
    · exact absurd h (by simp)

theorem addEdges_keysNodup (nodes : List String) :
    ∀ (wos : List WorkOrder) (inDeg : List (String × Int)) (adj : List (String × List String))
      (inDeg2 : List (String × Int)) (adj2 : List (String × List String)),
      addEdges nodes wos inDeg adj = some (inDeg2, adj2) →
      (mapKeys inDeg).Nodup → (mapKeys inDeg2).Nodup := by
  intro wos
  induction wos with
  | nil =>
    intro inDeg adj inDeg2 adj2 h hn
    rw [addEdges] at h
    cases h
    exact hn
  | cons wo rest ih =>
    intro inDeg adj inDeg2 adj2 h hn
    rw [addEdges] at h
    cases hf : addEdgesFor wo.docId nodes wo.data.dependsOnWorkOrderIds inDeg adj with
    | none => rw [hf] at h; exact absurd h (by simp)
    | some p =>
      rw [hf] at h
      exact ih _ _ _ _ h (addEdgesFor_keysNodup _ _ _ _ _ _ _ hf hn)

theorem mapKeys_map_pair {α : Type} (v : α) (s : List String) :
    mapKeys (s.map fun id => (id, v)) = s := by
  induction s with
  | nil => rfl
  | cons x xs ih => simp [mapKeys] at ih ⊢; exact ih

theorem topoSortWorkOrders_nodup (l : List WorkOrder) (ids : List String)
    (h : topoSortWorkOrders l = some ids) : ids.Nodup := by
  rw [topoSortWorkOrders.eq_def] at h
  dsimp only at h
  cases he : addEdges (jsSetOfList (l.map (·.docId))) l
      ((jsSetOfList (l.map (·.docId))).map fun id => (id, 0))
      ((jsSetOfList (l.map (·.docId))).map fun id => (id, [])) with
  | none => rw [he] at h; exact absurd h (by simp)
  | some p =>
    rw [he] at h
    obtain ⟨inDeg, adj⟩ := p
    dsimp only at h
    have hkeys0 : (mapKeys (((jsSetOfList (l.map (·.docId))).map
        fun id => ((id : String), (0 : Int))))).Nodup := by
      rw [mapKeys_map_pair]
      exact jsSetOfList_nodup _
    have hkeys : (mapKeys inDeg).Nodup := addEdges_keysNodup _ _ _ _ _ _ he hkeys0
    cases hk : kahnLoop adj
        ((jsSetOfList (l.map (·.docId))).length
          + (l.map fun w => w.data.dependsOnWorkOrderIds.length).sum + 1)
        inDeg ((inDeg.filter fun p => p.2 = 0).map (·.1)) [] with
    | none => rw [hk] at h; exact absurd h (by simp)
    | some result =>
      rw [hk] at h
      dsimp only at h
      have hres : result.Nodup := by
        refine kahnLoop_nodup adj _ inDeg _ [] result hk ⟨?_, ?_⟩
        · rw [List.append_nil]
          have hsub : ((inDeg.filter fun p => p.2 = 0).map (·.1)).Sublist (mapKeys inDeg) :=
            (List.filter_sublist _).map _
          exact hkeys.sublist hsub
        · intro j d hj hdpos
          constructor
          · intro hmem
            obtain ⟨q, hq, hqe⟩ := List.mem_map.mp hmem
            have hqm := List.mem_of_mem_filter hq
            have hq0 : q.2 = 0 := by
              have := List.of_mem_filter hq
              simpa using this
            have hlq : lookupAssoc inDeg j = some q.2 := by
              subst hqe
              exact lookupAssoc_of_mem hkeys (by simpa using hqm)
            rw [hj] at hlq
            cases hlq
            omega
          · intro hmem
            cases hmem
      split at h
      · cases h
        exact hres
      · exact absurd h (by simp)

/-! ### The driver invariant: dependency order, maintenance pinning and
the change list (claims C4, C5, C8) -/

/-- Key-value coherence of a work-order map: each stored order carries
its key as `docId`.  Holds for the driver's map, whose keys are the
orders' docIds. -/
def KVCoherent (wm : List (String × WorkOrder)) : Prop :=
  ∀ k v, lookupAssoc wm k = some v → v.docId = k

/-- The change record that placement produces for id `id`, reconstructed
from the initial map `wm0` and the final map `wmF`: present exactly when
the dates moved. -/
def chFor (wm0 wmF : List (String × WorkOrder)) (id : String) : Option Change :=
  match lookupAssoc wm0 id, lookupAssoc wmF id with
  | some w0, some w =>
    if w.data.startDate ≠ w0.data.startDate ∨ w.data.endDate ≠ w0.data.endDate
    then some (mkChange id w0 w) else none
  | _, _ => none

/-- Invariant carried through the driver's placement loop (relative to
the initial cloned map `wm0`). -/
structure MLInv (wm0 wm : List (String × WorkOrder)) (sch : List String)
    (chs : List Change) : Prop where
  kv : KVCoherent wm
  dep : ∀ id ∈ sch, ∀ wo, lookupAssoc wm id = some wo →
    wo.data.isMaintenance = false →
    ∀ pid ∈ wo.data.dependsOnWorkOrderIds,
      pid ∈ sch ∧ ∀ p, lookupAssoc wm pid = some p →
        p.data.endDate ≤ wo.data.startDate
  maint : ∀ id wo, lookupAssoc wm id = some wo → wo.data.isMaintenance = true →
    lookupAssoc wm0 id = some wo
  unproc : ∀ j, j ∉ sch → lookupAssoc wm j = lookupAssoc wm0 j
  smem : ∀ id ∈ sch, (lookupAssoc wm id).isSome
  ch : chs = sch.filterMap (chFor wm0 wm)

theorem computeEarliestGo_spec (wm : List (String × WorkOrder)) (sch : List String) :
    ∀ (ps : List String) (acc r : Nat), computeEarliestGo wm sch ps acc = some r →
      acc ≤ r ∧ ∀ pid ∈ ps, pid ∈ sch ∧
        ∀ p, lookupAssoc wm pid = some p → p.data.endDate ≤ r := by
  intro ps
  induction ps with
  | nil =>
    intro acc r h
    rw [computeEarliestGo] at h
    cases h
    exact ⟨Nat.le_refl _, by simp⟩
  | cons pid ps ih =>
    intro acc r h
    rw [computeEarliestGo] at h
    split at h
    · cases hp : lookupAssoc wm pid with
      | none => rw [hp] at h; exact absurd h (by simp)
      | some p =>
        rw [hp] at h
        have hrec := ih _ _ h
        have hacc : acc ≤ (if acc < p.data.endDate then p.data.endDate else acc) := by
          split <;> omega
        have hpe : p.data.endDate ≤ (if acc < p.data.endDate then p.data.endDate else acc) := by
          split <;> omega
        refine ⟨Nat.le_trans hacc hrec.1, ?_⟩
        intro q hq
        rcases List.mem_cons.mp hq with rfl | hmem
        · next hin =>
          refine ⟨hin, ?_⟩
          intro p2 hp2
          rw [hp] at hp2
          cases hp2
          exact Nat.le_trans hpe hrec.1
        · exact hrec.2 q hmem
    · exact absurd h (by simp)

theorem computeEarliest_spec (wm : List (String × WorkOrder)) (sch : List String)
    (wo : WorkOrder) (earliest : Nat)
    (h : computeEarliest wm sch wo = some earliest) :
    wo.data.startDate ≤ earliest ∧
    ∀ pid ∈ wo.data.dependsOnWorkOrderIds, pid ∈ sch ∧
      ∀ p, lookupAssoc wm pid = some p → p.data.endDate ≤ earliest := by
  rw [computeEarliest] at h
  split at h
  · next hempty =>
    cases h
    have : wo.data.dependsOnWorkOrderIds = [] := List.isEmpty_iff.mp hempty
    rw [this]
    exact ⟨Nat.le_refl _, by simp⟩
  · exact computeEarliestGo_spec wm sch _ _ _ h

theorem mainLoop_inv (fuel : Nat) (wcMap : List (String × WorkCenter))
    (wm0 : List (String × WorkOrder)) :
    ∀ (ids : List String) (wm : List (String × WorkOrder))
      (cb : List (String × List Interval)) (sch : List String) (chs : List Change)
      (wmF : List (String × WorkOrder)) (schF : List String) (chsF : List Change),
      mainLoop fuel wcMap ids wm cb sch chs = some (wmF, schF, chsF) →
      (sch ++ ids).Nodup →
      MLInv wm0 wm sch chs →
      schF = sch ++ ids ∧ MLInv wm0 wmF schF chsF := by
  intro ids
  induction ids with
  | nil =>
    intro wm cb sch chs wmF schF chsF h hnd hinv
    rw [mainLoop] at h
    cases h
    exact ⟨(List.append_nil sch).symm, hinv⟩
  | cons i0 ids ih =>
    intro wm cb sch chs wmF schF chsF h hnd hinv
    rw [mainLoop] at h
    cases hwo : lookupAssoc wm i0 with
    | none => rw [hwo] at h; exact absurd h (by simp)
    | some wo =>
      rw [hwo] at h
      dsimp only at h
      cases hwc : lookupAssoc wcMap wo.data.workCenterId with
      | none => rw [hwc] at h; exact absurd h (by simp)
      | some wc =>
        rw [hwc] at h
        dsimp only at h
        have hid_nsch : i0 ∉ sch := by
          intro hmem
          have hdisj := (List.nodup_append.mp hnd).2.2
          exact hdisj hmem (List.mem_cons_self i0 ids)
        have hnd2 : ((sch ++ [i0]) ++ ids).Nodup := by
          rw [List.append_assoc]
          exact hnd
        by_cases hm : wo.data.isMaintenance = true
        · -- maintenance order: recorded, nothing changes
          rw [if_pos hm] at h
          obtain ⟨hkv, hdep, hmaint, hunproc, hsmem, hch⟩ := hinv
          have hinv2 : MLInv wm0 wm (sch ++ [i0]) chs := by
            refine ⟨hkv, ?_, hmaint, ?_, ?_, ?_⟩
            · intro j hj wo2 hwo2 hm2 pid hpid
              rcases List.mem_append.mp hj with hjs | hjid
              · have hold := hdep j hjs wo2 hwo2 hm2 pid hpid
                exact ⟨List.mem_append_left _ hold.1, hold.2⟩
              · rw [List.mem_singleton] at hjid
                subst hjid
                rw [hwo] at hwo2
                cases hwo2
                rw [hm] at hm2
                cases hm2
            · intro j hj
              refine hunproc j ?_
              intro hmem
              exact hj (List.mem_append_left _ hmem)
            · intro j hj
              rcases List.mem_append.mp hj with hjs | hjid
              · exact hsmem j hjs
              · rw [List.mem_singleton] at hjid
                subst hjid
                rw [hwo]
                rfl
            · rw [hch, List.filterMap_append]
              have hidch : chFor wm0 wm i0 = none := by
                rw [chFor, hwo, hmaint i0 wo hwo hm]
                simp
              simp [hidch]
          obtain ⟨h1, h2⟩ := ih _ _ _ _ _ _ _ h hnd2 hinv2
          refine ⟨?_, h2⟩
          rw [h1, List.append_assoc]
          rfl
        · -- non-maintenance order: placed by the allocator
          rw [if_neg hm] at h
          have hmfalse : wo.data.isMaintenance = false := by
            revert hm
            cases wo.data.isMaintenance <;> simp
          cases hearl : computeEarliest wm sch wo with
          | none => rw [hearl] at h; exact absurd h (by simp)
          | some earliest =>
            rw [hearl] at h
            dsimp only at h
            cases halloc : scheduleWithShiftsAndBlocks fuel earliest
                (wo.data.durationMinutes + wo.data.setupTimeMinutes.getD 0)
                wc.data.shifts (sortIntervals ((lookupAssoc cb wc.docId).getD [])) with
            | none => rw [halloc] at h; exact absurd h (by simp)
            | some p =>
              rw [halloc] at h
              obtain ⟨s, e⟩ := p
              dsimp only at h
              generalize hwo1 : (⟨wo.docId, ⟨wo.data.workOrderNumber,
                  wo.data.workCenterId, s, e, wo.data.durationMinutes,
                  wo.data.isMaintenance, wo.data.dependsOnWorkOrderIds,
                  wo.data.setupTimeMinutes⟩⟩ : WorkOrder) = wo1 at h
              have hw1s : wo1.data.startDate = s := by rw [← hwo1]
              have hw1e : wo1.data.endDate = e := by rw [← hwo1]
              have hw1m : wo1.data.isMaintenance = false := by rw [← hwo1]; exact hmfalse
              have hw1deps : wo1.data.dependsOnWorkOrderIds
                  = wo.data.dependsOnWorkOrderIds := by rw [← hwo1]
              have hw1doc : wo1.docId = wo.docId := by rw [← hwo1]
              have hse : earliest ≤ s :=
                scheduleWithShiftsAndBlocks_start_ge _ _ _ _ _ _ _ halloc
              have hspec := computeEarliest_spec wm sch wo earliest hearl
              obtain ⟨hkv, hdep, hmaint, hunproc, hsmem, hch⟩ := hinv
              have hlook_self : lookupAssoc (jsMapInsert i0 wo1 wm) i0 = some wo1 :=
                lookupAssoc_jsMapInsert_self _ _ _
              have hlook_ne : ∀ j, i0 ≠ j →
                  lookupAssoc (jsMapInsert i0 wo1 wm) j = lookupAssoc wm j := fun j hj =>
                lookupAssoc_jsMapInsert_ne _ _ _ _ hj
              have hinv2 : MLInv wm0 (jsMapInsert i0 wo1 wm) (sch ++ [i0])
                  (if s ≠ wo.data.startDate ∨ e ≠ wo.data.endDate
                   then chs ++ [mkChange i0 wo wo1] else chs) := by
                refine ⟨?_, ?_, ?_, ?_, ?_, ?_⟩
                · intro k v hkv2
                  by_cases hk : i0 = k
                  · subst hk
                    rw [hlook_self] at hkv2
                    cases hkv2
                    rw [hw1doc]
                    exact hkv i0 wo hwo
                  · rw [hlook_ne k hk] at hkv2
                    exact hkv k v hkv2
                · intro j hj wo2 hwo2 hm2 pid hpid
                  rcases List.mem_append.mp hj with hjs | hjid
                  · have hjne : i0 ≠ j := by
                      intro heq
                      exact hid_nsch (heq ▸ hjs)
                    rw [hlook_ne j hjne] at hwo2
                    have hold := hdep j hjs wo2 hwo2 hm2 pid hpid
                    have hpidne : i0 ≠ pid := by
                      intro heq
                      exact hid_nsch (heq ▸ hold.1)
                    refine ⟨List.mem_append_left _ hold.1, ?_⟩
                    intro p2 hp2
                    rw [hlook_ne pid hpidne] at hp2
                    exact hold.2 p2 hp2
                  · rw [List.mem_singleton] at hjid
                    subst j
                    rw [hlook_self] at hwo2
                    cases hwo2
                    rw [hw1deps] at hpid
                    have hold := hspec.2 pid hpid
                    have hpidne : i0 ≠ pid := by
                      intro heq
                      exact hid_nsch (heq ▸ hold.1)
                    refine ⟨List.mem_append_left _ hold.1, ?_⟩
                    intro p2 hp2
                    rw [hlook_ne pid hpidne] at hp2
                    have hpe := hold.2 p2 hp2
                    rw [hw1s]
                    omega
                · intro j wo2 hwo2 hm2
                  by_cases hk : i0 = j
                  · subst hk
                    rw [hlook_self] at hwo2
                    cases hwo2
                    rw [hw1m] at hm2
                    cases hm2
                  · rw [hlook_ne j hk] at hwo2
                    exact hmaint j wo2 hwo2 hm2
                · intro j hj
                  have hjid : i0 ≠ j := by
                    intro heq
                    exact hj (heq ▸ List.mem_append_right _ (List.mem_singleton_self i0))
                  rw [hlook_ne j hjid]
                  refine hunproc j ?_
                  intro hmem
                  exact hj (List.mem_append_left _ hmem)
                · intro j hj
                  rcases List.mem_append.mp hj with hjs | hjid
                  · by_cases hk : i0 = j
                    · subst hk
                      rw [hlook_self]
                      rfl
                    · rw [hlook_ne j hk]
                      exact hsmem j hjs
                  · rw [List.mem_singleton] at hjid
                    subst j
                    rw [hlook_self]
                    rfl
                · rw [List.filterMap_append]
                  have hsch_eq : sch.filterMap (chFor wm0 (jsMapInsert i0 wo1 wm))
                      = sch.filterMap (chFor wm0 wm) := by
                    refine List.filterMap_congr ?_
                    intro j hjs
                    have hjne : i0 ≠ j := by
                      intro heq
                      exact hid_nsch (heq ▸ hjs)
                    rw [chFor, chFor, hlook_ne j hjne]
                  have hwm0id : lookupAssoc wm0 i0 = some wo := by
                    rw [← hunproc i0 hid_nsch]
                    exact hwo
                  have hidch : chFor wm0 (jsMapInsert i0 wo1 wm) i0
                      = if s ≠ wo.data.startDate ∨ e ≠ wo.data.endDate
                        then some (mkChange i0 wo wo1) else none := by
                    rw [chFor, hwm0id, hlook_self]
                    dsimp only
                    rw [hw1s, hw1e]
                  rw [hsch_eq, ← hch, List.filterMap_cons, hidch]
                  by_cases hmoved : s ≠ wo.data.startDate ∨ e ≠ wo.data.endDate
                  · simp [if_pos hmoved]
                  · simp [if_neg hmoved]
              obtain ⟨h1, h2⟩ := ih _ _ _ _ _ _ _ h hnd2 hinv2
              refine ⟨?_, h2⟩
              rw [h1, List.append_assoc]
              rfl

theorem mem_of_lookupAssoc {α : Type} : ∀ (m : List (String × α)) (k : String) (v : α),
    lookupAssoc m k = some v → (k, v) ∈ m := by
  intro m
  induction m with
  | nil => intro k v h; cases h
  | cons p rest ih =>
    intro k v h
    obtain ⟨k1, v1⟩ := p
    rw [lookupAssoc] at h
    split at h
    · next heq =>
      cases h
      subst heq
      exact List.mem_cons_self _ _
    · exact List.mem_cons_of_mem _ (ih k v h)

theorem pinMaintenance_mono :
    ∀ (l : List WorkOrder) (cb cb2 : List (String × List Interval)),
      pinMaintenance l cb = some cb2 →
      ∀ k bl, lookupAssoc cb k = some bl →
        ∃ bl2, lookupAssoc cb2 k = some bl2 ∧ ∀ x ∈ bl, x ∈ bl2 := by
  intro l
  induction l with
  | nil =>
    intro cb cb2 h k bl hk
    rw [pinMaintenance] at h
    cases h
    exact ⟨bl, hk, fun x hx => hx⟩
  | cons wo rest ih =>
    intro cb cb2 h k bl hk
    rw [pinMaintenance] at h
    split at h
    · cases hc : lookupAssoc cb wo.data.workCenterId with
      | none => rw [hc] at h; exact absurd h (by simp)
      | some blocked =>
        rw [hc] at h
        by_cases hkc : wo.data.workCenterId = k
        · subst hkc
          rw [hc] at hk
          cases hk
          obtain ⟨bl2, hbl2, hsub⟩ := ih _ _ h wo.data.workCenterId
            (sortIntervals (bl ++ [buildOrderInterval wo]))
            (lookupAssoc_jsMapInsert_self _ _ _)
          refine ⟨bl2, hbl2, ?_⟩
          intro x hx
          exact hsub x (mem_sortIntervals.mpr (List.mem_append_left _ hx))
        · obtain ⟨bl2, hbl2, hsub⟩ := ih _ _ h k bl
            (by rw [lookupAssoc_jsMapInsert_ne _ _ _ _ hkc]; exact hk)
          exact ⟨bl2, hbl2, hsub⟩
    · exact ih _ _ h k bl hk

theorem pinMaintenance_mem :
    ∀ (l : List WorkOrder) (cb cb2 : List (String × List Interval)),
      pinMaintenance l cb = some cb2 →
      ∀ wo ∈ l, wo.data.isMaintenance = true →
        ∃ bl, lookupAssoc cb2 wo.data.workCenterId = some bl ∧ buildOrderInterval wo ∈ bl := by
  intro l
  induction l with
  | nil =>
    intro cb cb2 h wo hmem
    cases hmem
  | cons wo0 rest ih =>
    intro cb cb2 h wo hmem hm
    rw [pinMaintenance] at h
    rcases List.mem_cons.mp hmem with rfl | hrest
    · rw [if_pos hm] at h
      cases hc : lookupAssoc cb wo.data.workCenterId with
      | none => rw [hc] at h; exact absurd h (by simp)
      | some blocked =>
        rw [hc] at h
        obtain ⟨bl2, hbl2, hsub⟩ := pinMaintenance_mono _ _ _ h wo.data.workCenterId
          (sortIntervals (blocked ++ [buildOrderInterval wo]))
          (lookupAssoc_jsMapInsert_self _ _ _)
        refine ⟨bl2, hbl2, ?_⟩
        exact hsub _ (mem_sortIntervals.mpr
          (List.mem_append_right _ (List.mem_singleton_self _)))
    · split at h
      · cases hc : lookupAssoc cb wo0.data.workCenterId with
        | none => rw [hc] at h; exact absurd h (by simp)
        | some blocked =>
          rw [hc] at h
          exact ih _ _ h wo hrest hm
      · exact ih _ _ h wo hrest hm

theorem kvCoherent_fold (ps : List (String × WorkOrder))
    (hps : ∀ p ∈ ps, p.2.docId = p.1) :
    ∀ m, KVCoherent m →
      KVCoherent (ps.foldl (fun m kv => jsMapInsert kv.1 kv.2 m) m) := by
  induction ps with
  | nil => intro m hm; exact hm
  | cons p rest ih =>
    intro m hm
    rw [List.foldl_cons]
    refine ih (fun q hq => hps q (List.mem_cons_of_mem _ hq)) _ ?_
    intro k v hkv
    by_cases hk : p.1 = k
    · subst hk
      rw [lookupAssoc_jsMapInsert_self] at hkv
      cases hkv
      exact hps p (List.mem_cons_self _ _)
    · rw [lookupAssoc_jsMapInsert_ne _ _ _ _ hk] at hkv
      exact hm k v hkv

theorem woMapOf_kv (input : ReflowInput) : KVCoherent (woMapOf input) := by
  rw [woMapOf, jsMapOfList]
  refine kvCoherent_fold _ ?_ [] ?_
  · intro p hp
    obtain ⟨w, _, rfl⟩ := List.mem_map.mp hp
    rfl
  · intro k v h
    cases h

theorem mlInv_init (input : ReflowInput) : MLInv (woMapOf input) (woMapOf input) [] [] := by
  refine ⟨woMapOf_kv input, ?_, ?_, ?_, ?_, rfl⟩
  · intro j hj
    cases hj
  · intro j wo h hm
    exact h
  · intro j hj
    rfl
  · intro j hj
    cases hj

theorem reflow_some_elim (fuel : Nat) (input : ReflowInput) (res : ReflowResult)
    (h : reflow fuel input = some res) :
    ∃ topoIds cb1 wmF schF chs,
      topoSortWorkOrders ((woMapOf input).map (·.2)) = some topoIds ∧
      pinnedBlockedOf input = some cb1 ∧
      mainLoop fuel (jsMapOfList (input.workCenters.map fun w => (w.docId, w)))
        topoIds (woMapOf input) cb1 [] [] = some (wmF, schF, chs) ∧
      res.updatedWorkOrders = (topoIds.filterMap fun id =>
        if id ∈ schF then lookupAssoc wmF id else none) ∧
      res.changes = chs := by
  rw [reflow] at h
  cases htopo : topoSortWorkOrders ((woMapOf input).map (·.2)) with
  | none => rw [htopo] at h; exact absurd h (by simp)
  | some topoIds =>
    rw [htopo] at h
    dsimp only at h
    cases hpin : pinnedBlockedOf input with
    | none => rw [hpin] at h; exact absurd h (by simp)
    | some cb1 =>
      rw [hpin] at h
      dsimp only at h
      cases hmain : mainLoop fuel (jsMapOfList (input.workCenters.map fun w => (w.docId, w)))
          topoIds (woMapOf input) cb1 [] [] with
      | none => rw [hmain] at h; exact absurd h (by simp)
      | some st =>
        rw [hmain] at h
        obtain ⟨wmF, schF, chs⟩ := st
        dsimp only at h
        injection h with h2
        subst h2
        exact ⟨topoIds, cb1, wmF, schF, chs, rfl, rfl, hmain, rfl, rfl⟩

/-- C4 amended.  For every run of the driver that returns a result, and
every dependency edge `p → c` whose child `c` is not a maintenance
order, the scheduled start of `c` is at or after the scheduled end of
`p` (on any center). -/
theorem dependency_respected_nonmaintenance (fuel : Nat) (input : ReflowInput)
    (res : ReflowResult) (h : reflow fuel input = some res) :
    ∀ c ∈ res.updatedWorkOrders, c.data.isMaintenance = false →
      ∀ pid ∈ c.data.dependsOnWorkOrderIds, ∀ p ∈ res.updatedWorkOrders,
        p.docId = pid → p.data.endDate ≤ c.data.startDate := by
  obtain ⟨topoIds, cb1, wmF, schF, chs, htopo, hpin, hmain, hupd, hchs⟩ :=
    reflow_some_elim fuel input res h
  have hnodup : (([] : List String) ++ topoIds).Nodup := by
    simpa using topoSortWorkOrders_nodup _ _ htopo
  obtain ⟨hschF, hinv⟩ := mainLoop_inv fuel _ (woMapOf input) topoIds (woMapOf input)
    cb1 [] [] wmF schF chs hmain hnodup (mlInv_init input)
  intro c hc hcm pid hpid p hp hpdoc
  rw [hupd] at hc hp
  obtain ⟨idc, hidc_mem, hidc⟩ := List.mem_filterMap.mp hc
  obtain ⟨idp, hidp_mem, hidp⟩ := List.mem_filterMap.mp hp
  have hidc2 : idc ∈ schF ∧ lookupAssoc wmF idc = some c := by
    revert hidc
    split
    · intro hx; next hin => exact ⟨hin, hx⟩
    · intro hx; cases hx
  have hidp2 : idp ∈ schF ∧ lookupAssoc wmF idp = some p := by
    revert hidp
    split
    · intro hx; next hin => exact ⟨hin, hx⟩
    · intro hx; cases hx
  have hpdoc2 : p.docId = idp := hinv.kv idp p hidp2.2
  have hdep := hinv.dep idc hidc2.1 c hidc2.2 hcm pid hpid
  refine hdep.2 p ?_
  have hip : idp = pid := by rw [← hpdoc2, hpdoc]
  rw [← hip]
  exact hidp2.2

theorem chFor_some_elim (wm0 wmF : List (String × WorkOrder)) (j : String) (ch : Change)
    (h : chFor wm0 wmF j = some ch) :
    ch.workOrderId = j ∧ ∃ w0 w, lookupAssoc wm0 j = some w0 ∧ lookupAssoc wmF j = some w ∧
      (w.data.startDate ≠ w0.data.startDate ∨ w.data.endDate ≠ w0.data.endDate) ∧
      ch = mkChange j w0 w := by
  rw [chFor] at h
  cases h0 : lookupAssoc wm0 j with
  | none => rw [h0] at h; cases h
  | some w0 =>
    rw [h0] at h
    cases hF : lookupAssoc wmF j with
    | none => rw [hF] at h; cases h
    | some w =>
      rw [hF] at h
      dsimp only at h
      split at h
      · next hcond =>
        cases h
        exact ⟨rfl, w0, w, rfl, rfl, hcond, rfl⟩
      · cases h

/-- C5.  Every maintenance order in the result is returned exactly as it
was cloned from the input (same entry, hence identical dates), appears
in no change record, and its span is a member of its center's blocked
list as pinned before any non-maintenance order is placed. -/
theorem maintenance_orders_pinned (fuel : Nat) (input : ReflowInput) (res : ReflowResult)
    (h : reflow fuel input = some res) :
    ∀ o ∈ res.updatedWorkOrders, o.data.isMaintenance = true →
      lookupAssoc (woMapOf input) o.docId = some o ∧
      (∀ ch ∈ res.changes, ch.workOrderId ≠ o.docId) ∧
      ∃ cb1, pinnedBlockedOf input = some cb1 ∧
        ∃ bl, lookupAssoc cb1 o.data.workCenterId = some bl ∧ buildOrderInterval o ∈ bl := by
  obtain ⟨topoIds, cb1, wmF, schF, chs, htopo, hpin, hmain, hupd, hchs⟩ :=
    reflow_some_elim fuel input res h
  have hnodup : (([] : List String) ++ topoIds).Nodup := by
    simpa using topoSortWorkOrders_nodup _ _ htopo
  obtain ⟨hschF, hinv⟩ := mainLoop_inv fuel _ (woMapOf input) topoIds (woMapOf input)
    cb1 [] [] wmF schF chs hmain hnodup (mlInv_init input)
  intro o ho hom
  rw [hupd] at ho
  obtain ⟨ido, hido_mem, hido⟩ := List.mem_filterMap.mp ho
  have hido2 : ido ∈ schF ∧ lookupAssoc wmF ido = some o := by
    revert hido
    split
    · intro hx
      next hin => exact ⟨hin, hx⟩
    · intro hx
      cases hx
  have hdoc : o.docId = ido := hinv.kv ido o hido2.2
  have hfirst : lookupAssoc (woMapOf input) o.docId = some o := by
    rw [hdoc]
    exact hinv.maint ido o hido2.2 hom
  refine ⟨hfirst, ?_, ?_⟩
  · intro ch hch2 heq
    rw [hchs, hinv.ch] at hch2
    obtain ⟨j, hj_mem, hj⟩ := List.mem_filterMap.mp hch2
    obtain ⟨hwid, w0, w, hw0, hw, hcond, hmk⟩ := chFor_some_elim _ _ _ _ hj
    rw [heq, hdoc] at hwid
    subst hwid
    rw [hido2.2] at hw
    cases hw
    rw [← hdoc] at hw0
    rw [hfirst] at hw0
    cases hw0
    rcases hcond with hc | hc <;> exact hc rfl
  · obtain ⟨womem⟩ : ∃ _ : (o.docId, o) ∈ woMapOf input, True :=
      ⟨mem_of_lookupAssoc _ _ _ hfirst, trivial⟩
    have hvals : o ∈ (woMapOf input).map (·.2) :=
      List.mem_map.mpr ⟨(o.docId, o), womem, rfl⟩
    rw [pinnedBlockedOf] at hpin
    obtain ⟨bl, hbl, hmem⟩ := pinMaintenance_mem _ _ _ hpin o hvals hom
    exact ⟨cb1, by rw [pinnedBlockedOf]; exact hpin, bl, hbl, hmem⟩

/-- C8.  The change list is exactly one record per order whose dates
moved relative to the cloned input, in placement order (the order of
`updatedWorkOrders`), with `deltaMinutes = newEnd − oldEnd` in minutes
(an integer, possibly negative), and no record for unmoved orders. -/
theorem changes_exactly_moved_orders (fuel : Nat) (input : ReflowInput) (res : ReflowResult)
    (h : reflow fuel input = some res) :
    res.changes = res.updatedWorkOrders.filterMap fun o =>
      match lookupAssoc (woMapOf input) o.docId with
      | none => none
      | some w0 =>
        if o.data.startDate ≠ w0.data.startDate ∨ o.data.endDate ≠ w0.data.endDate
        then some (mkChange o.docId w0 o) else none := by
  obtain ⟨topoIds, cb1, wmF, schF, chs, htopo, hpin, hmain, hupd, hchs⟩ :=
    reflow_some_elim fuel input res h
  have hnodup : (([] : List String) ++ topoIds).Nodup := by
    simpa using topoSortWorkOrders_nodup _ _ htopo
  obtain ⟨hschF, hinv⟩ := mainLoop_inv fuel _ (woMapOf input) topoIds (woMapOf input)
    cb1 [] [] wmF schF chs hmain hnodup (mlInv_init input)
  have hschF2 : schF = topoIds := by simpa using hschF
  rw [hchs, hupd, hinv.ch, List.filterMap_filterMap, hschF2]
  refine List.filterMap_congr ?_
  intro j hj
  have hjs : j ∈ schF := hschF2 ▸ hj
  rw [if_pos hj]
  have hsome := hinv.smem j hjs
  cases hlk : lookupAssoc wmF j with
  | none => rw [hlk] at hsome; cases hsome
  | some o =>
    dsimp only [Option.some_bind]
    have hdoc : o.docId = j := hinv.kv j o hlk
    rw [chFor, hdoc, hlk]
    cases hlk0 : lookupAssoc (woMapOf input) j with
    | none => rfl
    | some w0 => rfl

def woAw : WorkOrder := mkWo idA (monT 8 0) (monT 9 0) 60 false []
def woBw : WorkOrder := mkWo idB (monT 9 0) (monT 10 0) 60 false [idA]
def depWitnessInput : ReflowInput := ⟨[woAw, woBw], [wc1Plain]⟩
def depWitnessRes : ReflowResult := ⟨[woAw, woBw], [], 0, 0⟩
def maintWO : WorkOrder := mkWo idA (monT 8 30) (monT 9 30) 60 true []
def maintWitnessInput : ReflowInput := ⟨[maintWO], [wc1Plain]⟩
def maintWitnessRes : ReflowResult := ⟨[maintWO], [], 0, 0⟩
def c8WitnessInput : ReflowInput := ⟨[mkWo idA (monT 7 0) (monT 8 0) 60 false []], [wc1Plain]⟩
def c8WitnessRes : ReflowResult :=
  ⟨[mkWo idA (monT 8 0) (monT 9 0) 60 false []],
   [⟨idA, idA, monT 7 0, monT 8 0, monT 8 0, monT 9 0, 60⟩], 60, 1⟩

/-- Witness for the amended dependency claim at a concrete input. -/
theorem dependency_respected_nonmaintenance_witness :
    reflow 10 depWitnessInput = some depWitnessRes ∧
    woBw ∈ depWitnessRes.updatedWorkOrders ∧
    woAw.data.endDate ≤ woBw.data.startDate :=
  ⟨by decide, by decide,
   dependency_respected_nonmaintenance 10 depWitnessInput depWitnessRes (by decide)
     woBw (by decide) (by decide) idA (by decide) woAw (by decide) (by decide)⟩

/-- Witness for the maintenance-pinning claim at a concrete input. -/
theorem maintenance_orders_pinned_witness :
    reflow 10 maintWitnessInput = some maintWitnessRes ∧
    (lookupAssoc (woMapOf maintWitnessInput) maintWO.docId = some maintWO ∧
     (∀ ch ∈ maintWitnessRes.changes, ch.workOrderId ≠ maintWO.docId) ∧
     ∃ cb1, pinnedBlockedOf maintWitnessInput = some cb1 ∧
       ∃ bl, lookupAssoc cb1 maintWO.data.workCenterId = some bl ∧
         buildOrderInterval maintWO ∈ bl) :=
  ⟨by decide,
   maintenance_orders_pinned 10 maintWitnessInput maintWitnessRes (by decide)
     maintWO (by decide) (by decide)⟩

/-- Witness for the change-list claim at a concrete input with one moved
order. -/
theorem changes_exactly_moved_orders_witness :
    reflow 10 c8WitnessInput = some c8WitnessRes ∧
    c8WitnessRes.changes = c8WitnessRes.updatedWorkOrders.filterMap (fun o =>
      match lookupAssoc (woMapOf c8WitnessInput) o.docId with
      | none => none
      | some w0 =>
        if o.data.startDate ≠ w0.data.startDate ∨ o.data.endDate ≠ w0.data.endDate
        then some (mkChange o.docId w0 o) else none) :=
  ⟨by decide, changes_exactly_moved_orders 10 c8WitnessInput c8WitnessRes (by decide)⟩

end Reflow
